import Mathlib

/-!
Verification of the zebracal calendar core against its specification.

The development shallowly embeds the Go source (calendar loader, recurrence
expander, ICS codec, CalDAV discovery/fetch/upload clients, aggregator) into
Lean.  Instants are modelled as seconds since the Unix epoch in UTC (the code
only ever works with UTC wall-clock values at second precision); calendar
arithmetic is the proleptic Gregorian calendar exactly as implemented by the
Go time package (month normalisation followed by a civil day count).  Loops
that the source bounds by an iteration counter are embedded with the same
counter; the unbounded fast-forward loops of expandRecurringEvent take an
explicit fuel argument, and a result of none means the Go loop does not
terminate within that fuel.  HTTP and the file system are modelled by
explicit response functions passed to the embedded clients.
-/

namespace Zebracal

deriving instance DecidableEq for Except

/-- A civil (proleptic Gregorian) date, as produced by the conversions of the
Go time package. -/
structure CivDate where
  year : Int
  month : Int
  day : Int
deriving DecidableEq, Repr

/-- Day count since 1970-01-01 of the civil date (y, m, d); the standard
proleptic-Gregorian conversion (extensionally the computation of Go
time.Date for a month already in 1..12, linear in the day argument). -/
def daysFromCivil (y m d : Int) : Int :=
  let yAdj := if m ≤ 2 then y - 1 else y
  let era := yAdj / 400
  let yoe := yAdj - era * 400
  let mp := if m ≤ 2 then m + 9 else m - 3
  let doy := (153 * mp + 2) / 5 + d - 1
  let doe := yoe * 365 + yoe / 4 - yoe / 100 + doy
  era * 146097 + doe - 719468

/-- Civil date of a day count since 1970-01-01 (the inverse conversion used
by the Go time package when formatting). -/
def civilFromDays (n : Int) : CivDate :=
  let z := n + 719468
  let era := z / 146097
  let doe := z - era * 146097
  let yoe := (doe - doe / 1460 + doe / 36524 - doe / 146096) / 365
  let y := yoe + era * 400
  let doy := doe - (365 * yoe + yoe / 4 - yoe / 100)
  let mp := (5 * doy + 2) / 153
  let d := doy - (153 * mp + 2) / 5 + 1
  let m := if mp < 10 then mp + 3 else mp - 9
  let yy := if m ≤ 2 then y + 1 else y
  ⟨yy, m, d⟩

/-- Leap year test of the Go time package. -/
def isLeap (y : Int) : Bool :=
  y % 4 == 0 && (y % 100 != 0 || y % 400 == 0)

/-- Days in a month, as in the Go time package. -/
def daysInMonth (y m : Int) : Int :=
  if m = 2 then (if isLeap y then 29 else 28)
  else if m = 4 ∨ m = 6 ∨ m = 9 ∨ m = 11 then 30
  else 31

/- Instants are plain Int values: seconds since the Unix epoch, UTC.
A named abbreviation is deliberately avoided so that every equation and
inequality is stated at Int itself. -/

/-- Calendar day (since epoch) containing an instant. -/
def dayOf (t : Int) : Int := t / 86400

/-- Second of day of an instant. -/
def secOfDay (t : Int) : Int := t % 86400

/-- Civil date of an instant; equality of these models equality of the
Format(2006-01-02) strings the source compares. -/
def dateOf (t : Int) : CivDate := civilFromDays (dayOf t)

/-- Day count of Go time.Date for arbitrary (possibly out-of-range) month
and day arguments: the month is floor-normalised into 1..12 adjusting the
year, and the day offsets linearly. -/
def goDateDays (y m d : Int) : Int :=
  daysFromCivil (y + (m - 1) / 12) ((m - 1) % 12 + 1) d

/-- Go time.AddDate in UTC: decompose into a civil date, add the deltas
componentwise, recompose keeping the time of day. -/
def addDate (t : Int) (years months days : Int) : Int :=
  let c := civilFromDays (dayOf t)
  goDateDays (c.year + years) (c.month + months) (c.day + days) * 86400 + secOfDay t

/-- Build an instant from civil components (month must be in 1..12). -/
def mkInt (y m d hh mi ss : Int) : Int :=
  daysFromCivil y m d * 86400 + hh * 3600 + mi * 60 + ss

/-! ## Go string helpers (over character lists) -/

/-- Decimal value of a digit string (callers check digits first). -/
def digitsVal (l : List Char) : Int :=
  l.foldl (fun a c => a * 10 + ((c.toNat : Int) - 48)) 0

/-- Go strings.HasPrefix. -/
def goHasPfx : List Char → List Char → Bool
  | [], _ => true
  | _ :: _, [] => false
  | p :: ps, c :: cs => p == c && goHasPfx ps cs

/-- Whitespace as trimmed by Go strings.TrimSpace (ASCII plus NEL and NBSP). -/
def goIsSpace (c : Char) : Bool :=
  c == ' ' || c == '\t' || c == '\n' || c == '\r' ||
  c == Char.ofNat 11 || c == Char.ofNat 12 || c == Char.ofNat 0x85 || c == Char.ofNat 0xA0

/-- Go strings.TrimSpace. -/
def goTrimSpace (s : List Char) : List Char :=
  ((s.dropWhile goIsSpace).reverse.dropWhile goIsSpace).reverse

/-- Go strings.Split with a one-character separator. -/
def goSplitChar (sep : Char) : List Char → List (List Char)
  | [] => [[]]
  | c :: rest =>
    if c = sep then [] :: goSplitChar sep rest
    else
      match goSplitChar sep rest with
      | [] => [[c]]
      | f :: fs => (c :: f) :: fs

/-- Go strconv.Atoi (overflow of 64-bit ints is not modelled; the source
only reads small interval/count values). -/
def goAtoi (s : List Char) : Option Int :=
  match s with
  | '+' :: rest => if rest ≠ [] ∧ rest.all Char.isDigit then some (digitsVal rest) else none
  | '-' :: rest => if rest ≠ [] ∧ rest.all Char.isDigit then some (-(digitsVal rest)) else none
  | _ => if s ≠ [] ∧ s.all Char.isDigit then some (digitsVal s) else none

/-- ASCII uppercase map; Go strings.ToUpper agrees on the ASCII input the
source compares against. -/
def goToUpperChar (c : Char) : Char :=
  if 'a' ≤ c ∧ c ≤ 'z' then Char.ofNat (c.toNat - 32) else c

/-! ## Timestamp parsing (Go time.Parse for the three UNTIL layouts and the
wire date shape) -/

/-- Parse an 8-character yyyymmdd block, validating ranges as Go time.Parse
does (month 1..12, day within the month). -/
def parseYMD (s : List Char) : Option (Int × Int × Int) :=
  if s.length = 8 ∧ s.all Char.isDigit then
    let y := digitsVal (s.take 4)
    let m := digitsVal ((s.drop 4).take 2)
    let d := digitsVal (s.drop 6)
    if 1 ≤ m ∧ m ≤ 12 ∧ 1 ≤ d ∧ d ≤ daysInMonth y m then some (y, m, d) else none
  else none

/-- Parse a 6-character hhmmss block with Go range validation. -/
def parseHMS (s : List Char) : Option (Int × Int × Int) :=
  if s.length = 6 ∧ s.all Char.isDigit then
    let h := digitsVal (s.take 2)
    let mi := digitsVal ((s.drop 2).take 2)
    let sec := digitsVal (s.drop 4)
    if h ≤ 23 ∧ mi ≤ 59 ∧ sec ≤ 59 then some (h, mi, sec) else none
  else none

/-- Go time.Parse with layout yyyymmddThhmmssZ. -/
def parseTSZ (s : List Char) : Option Int :=
  match parseYMD (s.take 8) with
  | none => none
  | some ymd =>
    match s.drop 8 with
    | [] => none
    | c :: hms =>
      if c = 'T' then
        match parseHMS (hms.take 6) with
        | none => none
        | some hms3 =>
          if hms.drop 6 = ['Z'] then
            some (mkInt ymd.1 ymd.2.1 ymd.2.2 hms3.1 hms3.2.1 hms3.2.2)
          else none
      else none

/-- Go time.Parse with layout yyyymmddThhmmss (no zone; the source never
sets a location so the value is UTC). -/
def parseTSNoZ (s : List Char) : Option Int :=
  match parseYMD (s.take 8) with
  | none => none
  | some ymd =>
    match s.drop 8 with
    | [] => none
    | c :: hms =>
      if c = 'T' then
        match parseHMS (hms.take 6) with
        | none => none
        | some hms3 =>
          if hms.drop 6 = [] then
            some (mkInt ymd.1 ymd.2.1 ymd.2.2 hms3.1 hms3.2.1 hms3.2.2)
          else none
      else none

/-- Go time.Parse with layout yyyymmdd. -/
def parseTSDate (s : List Char) : Option Int :=
  if s.length = 8 then
    match parseYMD s with
    | some (y, m, d) => some (mkInt y m d 0 0 0)
    | none => none
  else none

/-! ## RRULE parsing and recurrence expansion (expandRecurringEvent) -/

/-- The parsed recurrence rule state of expandRecurringEvent: freq starts
empty, interval 1, untilT (the until bound of the source) unset, modelled
as none for the Go zero time, and count -1. -/
structure RRule where
  freq : List Char
  interval : Int
  untilT : Option Int
  count : Int
deriving DecidableEq, Repr

/-- First of the three UNTIL layouts that parses, as in the source. -/
def parseUntilVal (v : List Char) : Option Int :=
  match parseTSZ v with
  | some t => some t
  | none =>
    match parseTSNoZ v with
    | some t => some t
    | none => parseTSDate v

/-- One KEY=VALUE token of the rule string (the if-chain of the source;
unrecognised tokens and unparsable values leave the state unchanged). -/
def applyRRulePart (r : RRule) (part0 : List Char) : RRule :=
  let part := goTrimSpace part0
  if goHasPfx "FREQ=".data part then { r with freq := part.drop 5 }
  else if goHasPfx "INTERVAL=".data part then
    match goAtoi (part.drop 9) with
    | some v => { r with interval := v }
    | none => r
  else if goHasPfx "UNTIL=".data part then
    match parseUntilVal (part.drop 6) with
    | some t => { r with untilT := some t }
    | none => r
  else if goHasPfx "COUNT=".data part then
    match goAtoi (part.drop 6) with
    | some v => { r with count := v }
    | none => r
  else r

/-- Parse an RRULE string: uppercase, split on semicolons, fold the tokens. -/
def parseRRule (s : String) : RRule :=
  (goSplitChar ';' (s.data.map goToUpperChar)).foldl applyRRulePart ⟨[], 1, none, -1⟩

/-- One concrete occurrence of a recurring event. -/
structure occurrence where
  Start : Int
  End : Int
deriving DecidableEq, Repr

/-- The per-frequency advance of the switch statements in
expandRecurringEvent; none for an unrecognised frequency. -/
def stepOf (freq : List Char) (interval : Int) : Option (Int → Int) :=
  if freq = "DAILY".data then some (fun t => addDate t 0 0 interval)
  else if freq = "WEEKLY".data then some (fun t => addDate t 0 0 (7 * interval))
  else if freq = "MONTHLY".data then some (fun t => addDate t 0 interval 0)
  else if freq = "YEARLY".data then some (fun t => addDate t interval 0 0)
  else none

/-- endDate of expandRecurringEvent: maxDate, lowered to until when until is
set and earlier. -/
def effectiveEnd (maxDate : Int) (untilT : Option Int) : Int :=
  match untilT with
  | some u => if u < maxDate then u else maxDate
  | none => maxDate

/-- The fast-forward loops of expandRecurringEvent (one per frequency in the
source, identical up to the step): advance until the step lands on the
calendar day of now or strictly after now.  The source loop is unbounded;
none means it does not exit within the given fuel. -/
def fastForward (step : Int → Int) (todayD : CivDate) (now : Int) :
    Nat → Int → Option Int
  | 0, _ => none
  | fuel + 1, cs =>
    let next := step cs
    if dateOf next = todayD then some next
    else if now < next then some next
    else fastForward step todayD now fuel next

/-- The occurrence-generation loop of expandRecurringEvent.  The source
bounds it by iteration < 1000 (maxIterations); it is called with fuel 1000
and iteration 0, so the fuel never runs out before the iteration bound. -/
def genLoop (step? : Option (Int → Int)) (duration endDate now yesterday : Int)
    (count : Int) : Nat → Int → Nat → List occurrence
  | 0, _, _ => []
  | fuel + 1, cs, iteration =>
    if cs < endDate ∧ iteration < 1000 then
      if count > 0 ∧ (iteration : Int) ≥ count then []
      else
        let emit := if dateOf cs = dateOf yesterday ∨ dateOf cs = dateOf now ∨ now < cs
          then [⟨cs, cs + duration⟩] else []
        match step? with
        | some f => emit ++ genLoop step? duration endDate now yesterday count fuel (f cs) (iteration + 1)
        | none => emit
    else []

/-- expandRecurringEvent(start, end, rrule, maxDate, now).  ffFuel bounds
only the unbounded fast-forward loop; none means that loop diverges. -/
def expandRecurringEvent (ffFuel : Nat) (start endT : Int) (rrule : String)
    (maxDate now : Int) : Option (List occurrence) :=
  let duration := endT - start
  let r := parseRRule rrule
  let endDate := effectiveEnd maxDate r.untilT
  let yesterday := addDate now 0 0 (-1)
  let step? := stepOf r.freq r.interval
  if start < yesterday ∧ dateOf start ≠ dateOf now ∧ dateOf start ≠ dateOf yesterday then
    match step? with
    | some f =>
      match fastForward f (dateOf now) now ffFuel start with
      | none => none
      | some cs =>
        if endDate < cs then some []
        else some (genLoop step? duration endDate now yesterday r.count 1000 cs 0)
    | none => some []
  else
    some (genLoop step? duration endDate now yesterday r.count 1000 start 0)

/-! ## Events and the ICS codec -/

/-- The Event record of the source (the display colour is a lipgloss colour
string). -/
structure Event where
  Summary : String
  Start : Int
  End : Int
  Description : String
  CalendarName : String
  CalendarColor : String
  UID : String
deriving DecidableEq, Repr

/-- Go strings.ReplaceAll (non-overlapping, left to right), recursion paid
for by a character budget so that the definition stays structural; the
budget never runs out when it starts at the length of the subject.  The
source only calls it with non-empty patterns; for an empty pattern this
model is the identity. -/
def goReplaceAllF (pat rep : List Char) : Nat → List Char → List Char
  | _, [] => []
  | 0, l => l
  | fuel + 1, c :: rest =>
    if pat ≠ [] ∧ goHasPfx pat (c :: rest) then
      rep ++ goReplaceAllF pat rep fuel (rest.drop (pat.length - 1))
    else c :: goReplaceAllF pat rep fuel rest

/-- Go strings.ReplaceAll. -/
def goReplaceAll (pat rep l : List Char) : List Char :=
  goReplaceAllF pat rep l.length l

/-- The per-character effect of the four escape passes of escapeICSValue:
backslash, comma and semicolon gain a leading backslash, a newline becomes
the two characters backslash-n, anything else is untouched. -/
def escChar (c : Char) : List Char :=
  if c = '\\' then ['\\', '\\']
  else if c = ',' then ['\\', ',']
  else if c = ';' then ['\\', ';']
  else if c = '\n' then ['\\', 'n']
  else [c]

/-- escapeICSValue: four sequential ReplaceAll passes, backslash first. -/
def escapeICSValue (value : String) : String :=
  let v1 := goReplaceAll "\\".data "\\\\".data value.data
  let v2 := goReplaceAll ",".data "\\,".data v1
  let v3 := goReplaceAll ";".data "\\;".data v2
  let v4 := goReplaceAll "\n".data "\\n".data v3
  ⟨v4⟩

/-- Modelled from the spec: ICS TEXT unescaping as performed inside the
external ics parsing library (github.com/arran4/golang-ical, not part of
this repository) when property values are read back; the spec requires the
codec round trip to invert the escaping of escapeICSValue. -/
def unescapeICSText : List Char → List Char
  | [] => []
  | c :: rest =>
    if c = '\\' then
      match rest with
      | [] => [c]
      | c2 :: rest2 =>
        if c2 = 'n' ∨ c2 = 'N' then '\n' :: unescapeICSText rest2
        else c2 :: unescapeICSText rest2
    else c :: unescapeICSText rest

/-- Two-digit zero-padded decimal (Go Format verbs 01, 02, 15, 04, 05; all
source values lie in 0..99). -/
def pad2 (n : Int) : List Char :=
  [Char.ofNat (48 + (n / 10).toNat), Char.ofNat (48 + (n % 10).toNat)]

/-- Four-digit zero-padded year (Go Format verb 2006 for years 0..9999;
years outside that range print with more digits or a sign and are rendered
here via Int repr, which the fixed-width wire shape cannot parse back). -/
def pad4 (n : Int) : List Char :=
  if 0 ≤ n ∧ n ≤ 9999 then
    [Char.ofNat (48 + (n / 1000).toNat), Char.ofNat (48 + (n / 100 % 10).toNat),
     Char.ofNat (48 + (n / 10 % 10).toNat), Char.ofNat (48 + (n % 10).toNat)]
  else (toString n).data

/-- Go Format(20060102T150405Z) of an instant (UTC). -/
def formatTS (t : Int) : List Char :=
  let c := dateOf t
  let s := secOfDay t
  pad4 c.year ++ pad2 c.month ++ pad2 c.day ++ ['T'] ++
    pad2 (s / 3600) ++ pad2 (s % 3600 / 60) ++ pad2 (s % 60) ++ ['Z']

/-- The UID assignment of createEventOnRadicale: an empty UID is replaced,
before the request is built, by the formatted current time with the
mytuicalendar suffix.  The Go code mutates the event through a pointer;
here the updated event is returned. -/
def assignUID (nowT : Int) (ev : Event) : Event :=
  if ev.UID = "" then { ev with UID := (⟨formatTS nowT⟩ : String) ++ "@mytuicalendar" } else ev

/-- The single-event VCALENDAR payload of createEventOnRadicale. -/
def eventICSContent (ev : Event) : String :=
  "BEGIN:VCALENDAR\nVERSION:2.0\nPRODID:-//MyTuiCalendar//EN\nBEGIN:VEVENT\nUID:" ++ ev.UID ++
  "\nDTSTART:" ++ (⟨formatTS ev.Start⟩ : String) ++ "\nDTEND:" ++ (⟨formatTS ev.End⟩ : String) ++
  "\nSUMMARY:" ++ escapeICSValue ev.Summary ++
  "\nDESCRIPTION:" ++ escapeICSValue ev.Description ++
  "\nEND:VEVENT\nEND:VCALENDAR\n"

/-- A raw VEVENT block: property name/value pairs in order, values raw. -/
abbrev RawVEvent := List (List Char × List Char)

/-- Split a line at its first colon. -/
def splitColon : List Char → Option (List Char × List Char)
  | [] => none
  | ':' :: rest => some ([], rest)
  | c :: rest =>
    match splitColon rest with
    | some (a, b) => some (c :: a, b)
    | none => none

/-- Modelled from the spec: the wire container parse done by the external
ics library.  The payload is newline-delimited lines; it must open with the
BEGIN:VCALENDAR marker and close with END:VCALENDAR, events are delimited
by BEGIN:VEVENT and END:VEVENT blocks of NAME:VALUE lines; a structurally
unterminated container or block is a decode error (none). -/
def scanVEvents : List (List Char) → Option RawVEvent → Option (List RawVEvent)
  | [], _ => none
  | l :: rest, none =>
    if l = "END:VCALENDAR".data then some []
    else if l = "BEGIN:VEVENT".data then scanVEvents rest (some [])
    else scanVEvents rest none
  | l :: rest, some acc =>
    if l = "END:VEVENT".data then
      match scanVEvents rest none with
      | some evs => some (acc.reverse :: evs)
      | none => none
    else if l = "END:VCALENDAR".data then none
    else
      match splitColon l with
      | some p => scanVEvents rest (some (p :: acc))
      | none => scanVEvents rest (some acc)

/-- Modelled from the spec: parse a calendar payload into raw event blocks;
none is a structural decode error. -/
def parseICS (s : String) : Option (List RawVEvent) :=
  match goSplitChar '\n' s.data with
  | first :: rest => if first = "BEGIN:VCALENDAR".data then scanVEvents rest none else none
  | [] => none

/-- Modelled from the spec: a text property value as returned by the
external library (first matching property; ICS TEXT unescaping applied). -/
def getPropVal (ev : RawVEvent) (name : List Char) : Option (List Char) :=
  match ev.find? (fun p => p.1 == name) with
  | some p => some (unescapeICSText p.2)
  | none => none

/-- Modelled from the spec: a date property as read by the external library
(the wire dates are second-precision UTC in the fixed literal shape). -/
def getTimeProp (ev : RawVEvent) (name : List Char) : Option Int :=
  match ev.find? (fun p => p.1 == name) with
  | some p => parseTSZ p.2
  | none => none

/-- The RRULE lookup of loadICSFromReader: scan all properties for a name
whose uppercasing is RRULE and take its raw value (the later GetProperty
fallbacks of the source cannot find anything this scan missed); empty when
absent. -/
def findRRule (ev : RawVEvent) : List Char :=
  match ev.find? (fun p => p.1.map goToUpperChar == "RRULE".data) with
  | some p => p.2
  | none => []

/-- One VEVENT of loadICSFromReader: a record without start is dropped, a
missing end defaults to start plus one hour, an empty summary becomes
(No title), a record with a rule is expanded (none propagates expansion
divergence), otherwise exactly one event is produced unconditionally. -/
def decodeVEvent (ffFuel : Nat) (nowT maxDate : Int) (calName color : String)
    (ev : RawVEvent) : Option (List Event) :=
  match getTimeProp ev "DTSTART".data with
  | none => some []
  | some start =>
    let endT := match getTimeProp ev "DTEND".data with
      | some e => e
      | none => start + 3600
    let summary0 : String := match getPropVal ev "SUMMARY".data with
      | some v => ⟨v⟩
      | none => ""
    let description : String := match getPropVal ev "DESCRIPTION".data with
      | some v => ⟨v⟩
      | none => ""
    let uid : String := match getPropVal ev "UID".data with
      | some v => ⟨v⟩
      | none => ""
    let summary := if summary0 = "" then "(No title)" else summary0
    let rrule := findRRule ev
    if rrule ≠ [] then
      match expandRecurringEvent ffFuel start endT ⟨rrule⟩ maxDate nowT with
      | none => none
      | some occs => some (occs.map fun o => ⟨summary, o.Start, o.End, description, calName, color, uid⟩)
    else
      some [⟨summary, start, endT, description, calName, color, uid⟩]

/-- loadICSFromReader: decode a payload into events, expanding recurring
records up to one year past now.  Outer none is expansion divergence; the
inner error is a structural decode failure of the payload. -/
def loadICSFromReader (ffFuel : Nat) (nowT : Int) (s : String) (calName color : String) :
    Option (Except Unit (List Event)) :=
  let maxDate := addDate nowT 1 0 0
  match parseICS s with
  | none => some (.error ())
  | some evs =>
    match evs.mapM (decodeVEvent ffFuel nowT maxDate calName color) with
    | none => none
    | some ls => some (.ok ls.flatten)

/-! ## Upload client (createEventOnRadicale) -/

/-- An HTTP response as seen by the embedded clients. -/
structure HttpResp where
  status : Int
  body : String
deriving DecidableEq, Repr

/-- Upload failure: transport error, or a PUT status other than 201/204
with the response body (the Go error string carries both). -/
inductive UploadErr where
  | netErr : UploadErr
  | putFail (status : Int) (body : String) : UploadErr
deriving DecidableEq, Repr

/-- The per-event address the encoded payload is PUT to. -/
def eventPutURL (calendarURL uid : String) : String :=
  calendarURL ++ "/" ++ uid ++ ".ics"

/-- createEventOnRadicale: assign a UID when empty, encode, PUT; only 201
and 204 are success.  The server argument models the HTTP round trip (PUT
url and body to response; none is a transport error); the returned event is
the caller-visible (pointer-mutated) event, returned in every outcome. -/
def createEventOnRadicale (nowT : Int) (calendarURL : String) (ev0 : Event)
    (server : String → String → Option HttpResp) : Event × Except UploadErr Unit :=
  let ev := assignUID nowT ev0
  let content := eventICSContent ev
  match server (eventPutURL calendarURL ev.UID) content with
  | none => (ev, .error .netErr)
  | some r =>
    if r.status ≠ 201 ∧ r.status ≠ 204 then (ev, .error (.putFail r.status r.body))
    else (ev, .ok ())

/-! ## Fetch client (loadICSFromRadicale) -/

/-- Go strings.HasSuffix. -/
def goHasSfx (suf s : List Char) : Bool := goHasPfx suf.reverse s.reverse

/-- Go strings.TrimSuffix. -/
def goTrimSfx (s suf : List Char) : List Char :=
  if goHasSfx suf s then s.take (s.length - suf.length) else s

/-- The four candidate addresses of loadICSFromRadicale, in order. -/
def urlsToTry (calendarURL : String) : List String :=
  let baseURL : String := ⟨goTrimSfx calendarURL.data "/".data⟩
  [baseURL ++ ".ics", calendarURL ++ ".ics", baseURL, calendarURL]

/-- The rolling last error of the candidate loop. -/
inductive FetchSub where
  | netErr : FetchSub
  | parseErr : FetchSub
  | notCalendar (status : Int) : FetchSub
  | httpErr (status : Int) (truncBody : String) : FetchSub
deriving DecidableEq, Repr

/-- Failure of loadICSFromRadicale: either every candidate failed (with the
last status and last rolling error), or the 207 multistatus path failed. -/
inductive FetchFail where
  | allFailed (lastStatus : Int) (lastErr : Option FetchSub) : FetchFail
  | msNoData : FetchFail
  | msDecode : FetchFail
deriving DecidableEq, Repr

/-- Index of the first occurrence of a character. -/
def findChIdx (c : Char) : List Char → Option Nat
  | [] => none
  | x :: rest => if x = c then some 0 else (findChIdx c rest).map (· + 1)

/-- Index of the first occurrence of a (non-empty) substring. -/
def findSubIdx (pat : List Char) : List Char → Option Nat
  | [] => none
  | x :: rest => if goHasPfx pat (x :: rest) then some 0 else (findSubIdx pat rest).map (· + 1)

/-- The calendar-data extraction regex of parseCalendarFromMultistatus:
each match opens with the literal less-than C:calendar-data, runs to the
first closing angle bracket, lazily captures up to the closing tag, and
scanning resumes after it; matches are non-overlapping, left to right. -/
def extractCalData : List Char → List (List Char)
  | [] => []
  | x :: rest =>
    if goHasPfx "<C:calendar-data".data (x :: rest) then
      let afterLit := rest.drop 15
      match findChIdx '>' afterLit with
      | some i =>
        let afterOpen := afterLit.drop (i + 1)
        match findSubIdx "</C:calendar-data>".data afterOpen with
        | some j => afterOpen.take j :: extractCalData (afterOpen.drop (j + 18))
        | none => []
      | none => []
    else extractCalData rest
termination_by l => l.length
decreasing_by
  · simp [List.length_drop]; omega
  · simp

/-- The XML entity decoding of parseCalendarFromMultistatus (five
ReplaceAll passes in source order). -/
def xmlEntityDecode (s : List Char) : List Char :=
  let s1 := goReplaceAll "&lt;".data "<".data s
  let s2 := goReplaceAll "&gt;".data ">".data s1
  let s3 := goReplaceAll "&amp;".data "&".data s2
  let s4 := goReplaceAll "&quot;".data "\"".data s3
  goReplaceAll "&apos;".data "\'".data s4

/-- parseCalendarFromMultistatus: extract calendar-data blocks, decode
entities, concatenate inside a synthetic container and decode it. -/
def parseCalendarFromMultistatus (ffFuel : Nat) (nowT : Int) (xmlBody : String)
    (calName color : String) : Option (Except FetchFail (List Event)) :=
  let blocks := extractCalData xmlBody.data
  if blocks = [] then some (.error .msNoData)
  else
    let combined : String :=
      "BEGIN:VCALENDAR\nVERSION:2.0\n" ++ ⟨(blocks.map xmlEntityDecode).flatten⟩ ++ "END:VCALENDAR\n"
    match loadICSFromReader ffFuel nowT combined calName color with
    | none => none
    | some (.ok evs) => some (.ok evs)
    | some (.error _) => some (.error .msDecode)

/-- The candidate loop of loadICSFromRadicale, carrying the last status and
rolling last error.  A 200 whose trimmed body opens with BEGIN:VCALENDAR is
decoded (success returns, a decode error rolls on); a 207 returns the
multistatus path outcome directly; any other status records a truncated
body error and the next candidate is tried. -/
def fetchLoop (ffFuel : Nat) (nowT : Int) (calName color : String)
    (server : String → Option HttpResp) :
    List String → Int → Option FetchSub → Option (Except FetchFail (List Event))
  | [], lastStatus, lastErr => some (.error (.allFailed lastStatus lastErr))
  | url :: rest, lastStatus, _lastErr =>
    match server url with
    | none => fetchLoop ffFuel nowT calName color server rest lastStatus (some .netErr)
    | some r =>
      if r.status = 200 then
        if goHasPfx "BEGIN:VCALENDAR".data (goTrimSpace r.body.data) then
          match loadICSFromReader ffFuel nowT r.body calName color with
          | none => none
          | some (.ok evs) => some (.ok evs)
          | some (.error _) =>
            fetchLoop ffFuel nowT calName color server rest r.status (some .parseErr)
        else fetchLoop ffFuel nowT calName color server rest r.status (some (.notCalendar r.status))
      else if r.status = 207 then
        parseCalendarFromMultistatus ffFuel nowT r.body calName color
      else
        fetchLoop ffFuel nowT calName color server rest r.status
          (some (.httpErr r.status ⟨r.body.data.take (min 200 r.body.length)⟩))

/-- loadICSFromRadicale over a server response function. -/
def loadICSFromRadicale (ffFuel : Nat) (nowT : Int) (calendarURL calName color : String)
    (server : String → Option HttpResp) : Option (Except FetchFail (List Event)) :=
  fetchLoop ffFuel nowT calName color server (urlsToTry calendarURL) 0 none

/-! ## Discovery client (loadCalendarsFromRadicale) -/

/-- Radicale server configuration. -/
structure RadicaleConfig where
  serverURL : String
  username : String
  password : String
deriving DecidableEq, Repr

/-- A discovered calendar collection. -/
structure CalDAVCalendar where
  DisplayName : String
  URL : String
deriving DecidableEq, Repr

/-- One propstat block of a multistatus response (the propfind only asks
for the display name; the other prop fields of the source are unused). -/
structure DavPropstat where
  status : String
  displayName : String
deriving DecidableEq, Repr

/-- One response element of a multistatus body. -/
structure DavResponse where
  href : String
  propstat : List DavPropstat
deriving DecidableEq, Repr

/-- Outcome of one PROPFIND against a base path: transport or request-build
failure, a non-207 status with its body, a 207 whose XML does not parse, or
a parsed multistatus. -/
inductive PropfindResult where
  | netErr : PropfindResult
  | non207 (status : Int) (body : String) : PropfindResult
  | badXml : PropfindResult
  | ok (rs : List DavResponse) : PropfindResult

/-- Discovery failure: the rolling last error (request failure, non-207
with truncated body, or XML failure), or no calendars found at all. -/
inductive DiscFail where
  | reqErr : DiscFail
  | non207 (url : String) (status : Int) (truncBody : String) : DiscFail
  | xmlErr : DiscFail
  | noCalendarsFound : DiscFail
deriving DecidableEq, Repr

/-- Go strings.Contains. -/
def containsSubstr : List Char → List Char → Bool
  | [], sub => sub == []
  | c :: rest, sub => goHasPfx sub (c :: rest) || containsSubstr rest sub

/-- Go strings.Count for a one-character substring. -/
def goCountChar (c : Char) (s : List Char) : Int := (s.filter (· == c)).length

/-- Go path.Base. -/
def pathBase (s : List Char) : List Char :=
  if s = [] then ".".data
  else
    let t := (s.reverse.dropWhile (· == '/')).reverse
    if t = [] then "/".data
    else (t.reverse.takeWhile (fun c => c ≠ '/')).reverse

/-- The 500-character body truncation of the discovery error message. -/
def truncBody500 (s : String) : String :=
  if s.length > 500 then (⟨s.data.take 500⟩ : String) ++ "..." else s

/-- Processing of one multistatus response entry (source lines picking the
successful propstat, normalising the href, skipping the base path, root,
system collections and the bare username collection, and falling back to
the last path segment for the name); none when the entry is skipped. -/
def processDavResponse (serverURL basePath username : String) (r : DavResponse) :
    Option CalDAVCalendar :=
  match r.propstat.find? (fun ps => containsSubstr ps.status.data "200".data) with
  | none => none
  | some ps =>
    let href1 : List Char :=
      if goHasPfx "/".data r.href.data then r.href.data
      else if goHasSfx "/".data basePath.data then basePath.data ++ r.href.data
      else basePath.data ++ "/".data ++ r.href.data
    let href2 := if goHasSfx "/".data href1 then href1 else href1 ++ "/".data
    let nbp := if goHasSfx "/".data basePath.data then basePath.data else basePath.data ++ "/".data
    if href2 = nbp ∨ href2 = "/".data ∨ href2 = "//".data then none
    else
      let trimmed := goTrimSfx href2 "/".data
      let calName : String := if ps.displayName = "" then ⟨pathBase trimmed⟩ else ps.displayName
      let pathName := pathBase trimmed
      if pathName = "user".data ∨ pathName = "principals".data ∨
          (pathName = username.data ∧ goCountChar '/' href2 ≤ 2) then none
      else some ⟨calName, serverURL ++ (⟨href2⟩ : String)⟩

/-- All usable entries of one multistatus body, in order. -/
def processResponses (serverURL basePath username : String) (rs : List DavResponse) :
    List CalDAVCalendar :=
  rs.filterMap (processDavResponse serverURL basePath username)

/-- The base-path loop of loadCalendarsFromRadicale.  The calendars slice
accumulates across paths (it is never reset); after a path with a non-empty
multistatus the loop returns as soon as the slice is non-empty. -/
def discLoop (serverURL username : String) (resp : String → PropfindResult) :
    List String → List CalDAVCalendar → Option DiscFail → Except DiscFail (List CalDAVCalendar)
  | [], _, lastErr =>
    match lastErr with
    | some e => .error e
    | none => .error .noCalendarsFound
  | basePath :: rest, cals, lastErr =>
    match resp (serverURL ++ basePath) with
    | .netErr => discLoop serverURL username resp rest cals (some .reqErr)
    | .non207 st body =>
      discLoop serverURL username resp rest cals
        (some (.non207 (serverURL ++ basePath) st (truncBody500 body)))
    | .badXml => discLoop serverURL username resp rest cals (some .xmlErr)
    | .ok rs =>
      if rs = [] then discLoop serverURL username resp rest cals lastErr
      else
        let cals2 := cals ++ processResponses serverURL basePath username rs
        if cals2 ≠ [] then .ok cals2
        else discLoop serverURL username resp rest cals2 lastErr

/-- loadCalendarsFromRadicale: normalise the server address, then try the
username path and root in order over the PROPFIND response function. -/
def loadCalendarsFromRadicale (config : RadicaleConfig) (resp : String → PropfindResult) :
    Except DiscFail (List CalDAVCalendar) :=
  let serverURL : String := ⟨goTrimSfx config.serverURL.data "/".data⟩
  let userPath := "/" ++ config.username ++ "/"
  discLoop serverURL config.username resp [userPath, "/"] [] none

/-! ## Aggregator (loadAllCalendars) -/

/-- One configured calendar source (the source field named type is ctype
here, type being reserved). -/
structure CalendarConfigEntry where
  name : String
  url : String
  file : String
  ctype : String
deriving DecidableEq, Repr

/-- The loaded configuration. -/
structure AppConfig where
  radicale : Option RadicaleConfig
  calendars : List CalendarConfigEntry
  localCalendars : List String
deriving DecidableEq, Repr

/-- The fixed colour palette of the source. -/
def calendarColors : List String :=
  ["205", "117", "229", "120", "183", "216", "86", "211"]

/-- Palette colour at a running index (modular cycling as in the source). -/
def colorAt (idx : Nat) : String :=
  calendarColors.getD (idx % calendarColors.length) ""

/-- The effectful collaborators of loadAllCalendars, injected: discovery,
the three loaders (each taking address or path, display name and colour),
file existence, and the configuration directory lookup. -/
structure LoadEnv where
  discover : RadicaleConfig → Except DiscFail (List CalDAVCalendar)
  loadRadicaleCal : String → String → String → Except Unit (List Event)
  loadFromURL : String → String → String → Except Unit (List Event)
  loadFromFile : String → String → String → Except Unit (List Event)
  statKnown : String → Bool
  configDirMaybe : Option String

/-- The Radicale loop of loadAllCalendars: every discovered collection gets
the next colour and its address recorded; a fetch failure is only a warning
and still advances the colour index. -/
def radicaleLoop (env : LoadEnv) :
    List CalDAVCalendar → Nat → List Event × List (String × String) × List (String × String) × Nat
  | [], idx => ([], [], [], idx)
  | cal :: rest, idx =>
    let color := colorAt idx
    let evs := match env.loadRadicaleCal cal.URL cal.DisplayName color with
      | .ok evs => evs
      | .error _ => []
    let (es, cs, us, i2) := radicaleLoop env rest (idx + 1)
    (evs ++ es, (cal.DisplayName, color) :: cs, (cal.DisplayName, cal.URL) :: us, i2)

/-- The configured-feeds loop: radicale-typed entries are skipped, a URL
feed or file is loaded, failures warn and do not advance the colour index
(the source increments it only after a successful load). -/
def feedsLoop (env : LoadEnv) :
    List CalendarConfigEntry → Nat → List Event × List (String × String) × Nat
  | [], idx => ([], [], idx)
  | cal :: rest, idx =>
    if cal.ctype = "radicale" then feedsLoop env rest idx
    else
      let color := colorAt idx
      let res : Except Unit (List Event) :=
        if cal.url ≠ "" then env.loadFromURL cal.url cal.name color
        else if cal.file ≠ "" then env.loadFromFile cal.file cal.name color
        else .ok []
      match res with
      | .error _ =>
        let (es, cs, i2) := feedsLoop env rest idx
        (es, (cal.name, color) :: cs, i2)
      | .ok evs =>
        let (es, cs, i2) := feedsLoop env rest (idx + 1)
        (evs ++ es, (cal.name, color) :: cs, i2)

/-- filepath.Join as used for local calendar paths (a current-directory
base joins to the bare name; further path cleaning does not matter here
because paths are only keys of the injected effects). -/
def joinPath (a b : String) : String :=
  if a = "." then b else a ++ "/" ++ b

/-- The local-files loop: a missing file or failing load warns and is
skipped (without advancing the colour index, as in the source). -/
def localsLoop (env : LoadEnv) (baseDir : String) :
    List String → Nat → List Event × List (String × String) × Nat
  | [], idx => ([], [], idx)
  | lc :: rest, idx =>
    let icsFile := if goHasSfx ".ics".data lc.data then lc else lc ++ ".ics"
    let icsPath := joinPath baseDir icsFile
    if ¬ env.statKnown icsPath then localsLoop env baseDir rest idx
    else
      let calName : String := ⟨goTrimSfx (pathBase icsFile.data) ".ics".data⟩
      let color := colorAt idx
      match env.loadFromFile icsPath calName color with
      | .error _ =>
        let (es, cs, i2) := localsLoop env baseDir rest idx
        (es, (calName, color) :: cs, i2)
      | .ok evs =>
        let (es, cs, i2) := localsLoop env baseDir rest (idx + 1)
        (evs ++ es, (calName, color) :: cs, i2)

/-- loadAllCalendars.  configR models the loadConfig outcome (none when it
errored or was nil, in which case every source is skipped); the error case
is exactly the no-calendars-found error of the source.  Warnings are
printed to stderr by the source and are not part of its result. -/
def gatherAll (passedRadicale : Option RadicaleConfig) (configR : Option AppConfig)
    (env : LoadEnv) :
    List Event × List (String × String) × List (String × String) :=
    match configR with
    | none => ([], [], [])
    | some config =>
      let radicaleConfig := match config.radicale with
        | some rc => some rc
        | none => passedRadicale
      let (evR, csR, usR, idxR) :=
        match radicaleConfig with
        | some rc =>
          if rc.serverURL ≠ "" then
            match env.discover rc with
            | .ok cals => radicaleLoop env cals 0
            | .error _ => ([], [], [], 0)
          else ([], [], [], 0)
        | none => ([], [], [], 0)
      let (evF, csF, idxF) := feedsLoop env config.calendars idxR
      let (evL, csL, _) :=
        if config.localCalendars ≠ [] then
          let baseDir := if env.statKnown "calendars.json" then "."
            else match env.configDirMaybe with
              | some d => d
              | none => ""
          if baseDir ≠ "" then localsLoop env baseDir config.localCalendars idxF
          else ([], [], idxF)
        else ([], [], idxF)
      (evR ++ evF ++ evL, csR ++ csF ++ csL, usR)

/-- loadAllCalendars fails exactly when the gathered event list is empty
(the no-calendars-found error of the source); otherwise the gathered
events, colour assignments and addresses are returned. -/
def loadAllCalendars (passedRadicale : Option RadicaleConfig) (configR : Option AppConfig)
    (env : LoadEnv) :
    Except Unit (List Event × List (String × String) × List (String × String)) :=
  let loaded := gatherAll passedRadicale configR env
  if loaded.1 = [] then .error ()
  else .ok loaded

/-! ## Theorems: the civil calendar model -/

set_option maxHeartbeats 4000000 in
/-- Core bounds of the civilFromDays computation: for a day of era in
0..146096 the computed year of era lies in 0..399, the day of year in
0..365, and a day of year of 365 only happens in a leap year of the era. -/
theorem yoeDoyFacts (doe e f g b c d : Int)
    (h0 : 0 ≤ doe) (h9 : doe ≤ 146096)
    (he : e = doe / 1460) (hf : f = doe / 36524) (hg : g = doe / 146096)
    (hb : b = (doe - e + f - g) / 365) (hc : c = b / 4) (hd : d = b / 100) :
    0 ≤ b ∧ b ≤ 399 ∧ 0 ≤ doe - (365 * b + c - d) ∧ doe - (365 * b + c - d) ≤ 365 ∧
    (doe - (365 * b + c - d) = 365 → b % 4 = 3 ∧ (¬ b % 100 = 99 ∨ b = 399)) := by
  rcases le_or_lt doe 1459 with hA | hA1
  · have hgz : g = 0 := by omega
    have hfz : f = 0 := by omega
    have hez : e = 0 := by omega
    have hb3 : 0 ≤ b ∧ b ≤ 3 := by omega
    have hcz : c = 0 := by omega
    have hdz : d = 0 := by omega
    refine ⟨by omega, by omega, by omega, by omega, fun h5 => absurd h5 (by omega)⟩
  rcases le_or_lt doe 36523 with hB | hB1
  · have hgz : g = 0 := by omega
    have hfz : f = 0 := by omega
    have h1 : 0 ≤ b := by omega
    have h2 : b ≤ 99 := by omega
    have hdz : d = 0 := by omega
    have h3 : 1460 * c ≤ 365 * b := by omega
    have h4 : c ≤ e := by omega
    have h5 : 365 * b + c ≤ doe := by omega
    have h6 : e ≤ c + 1 := by omega
    refine ⟨h1, by omega, by omega, by omega, fun hY => ?_⟩
    have hec : e = c + 1 := by omega
    have hr4 : b % 4 = 3 := by omega
    exact ⟨hr4, Or.inl (by omega)⟩
  rcases le_or_lt doe 146095 with hC | hC1
  · have hgz : g = 0 := by omega
    have hf13 : 1 ≤ f ∧ f ≤ 3 := by omega
    have heL : 25 * f ≤ e := by omega
    have hyoeL : 100 * f ≤ b := by omega
    have hyoeU : b ≤ 100 * f + 99 := by omega
    have hdf : d = f := by omega
    have hcb : 1460 * c ≤ 365 * b := by omega
    have hce : c ≤ e := by omega
    have hlow : 365 * b + c - f ≤ doe := by omega
    have hec : e ≤ c + 1 := by omega
    refine ⟨by omega, by omega, by omega, by omega, fun hY => ?_⟩
    have hec2 : e = c + 1 := by omega
    have hr4 : b % 4 = 3 := by omega
    refine ⟨hr4, Or.inl fun h99 => ?_⟩
    have hbv : b = 100 * f + 99 := by omega
    have hcv : c = 25 * f + 24 := by omega
    omega
  · have hdoe : doe = 146096 := by omega
    subst hdoe
    have hgz : g = 1 := by omega
    have hfz : f = 4 := by omega
    have hez : e = 100 := by omega
    have hbz : b = 399 := by omega
    refine ⟨by omega, by omega, by omega, by omega, fun hY => ⟨by omega, Or.inr (by omega)⟩⟩

set_option maxHeartbeats 4000000 in
/-- The conversion round trip over named intermediates (the let bindings of
civilFromDays as equations). -/
theorem roundtripCore (n z era doe yoe y doy mp d m yy : Int)
    (hz : z = n + 719468) (hera : era = z / 146097) (hdoe : doe = z - era * 146097)
    (hyoe : yoe = (doe - doe / 1460 + doe / 36524 - doe / 146096) / 365)
    (hy : y = yoe + era * 400)
    (hdoy : doy = doe - (365 * yoe + yoe / 4 - yoe / 100))
    (hmp : mp = (5 * doy + 2) / 153)
    (hd : d = doy - (153 * mp + 2) / 5 + 1)
    (hm : m = if mp < 10 then mp + 3 else mp - 9)
    (hyy : yy = if m ≤ 2 then y + 1 else y) :
    daysFromCivil yy m d = n := by
  have hdoeB : 0 ≤ doe ∧ doe ≤ 146096 := by omega
  have hB := yoeDoyFacts doe (doe / 1460) (doe / 36524) (doe / 146096) yoe (yoe / 4) (yoe / 100)
    hdoeB.1 hdoeB.2 rfl rfl rfl hyoe rfl rfl
  have hyoeB : 0 ≤ yoe ∧ yoe ≤ 399 := ⟨hB.1, hB.2.1⟩
  have hdoyB : 0 ≤ doy ∧ doy ≤ 365 := by omega
  have hmpB : 0 ≤ mp ∧ mp ≤ 11 := by omega
  have hyd : y / 400 = era := by omega
  have hyr : y - y / 400 * 400 = yoe := by omega
  have hg4 : (y - y / 400 * 400) / 4 = yoe / 4 := by rw [hyr]
  have hg100 : (y - y / 400 * 400) / 100 = yoe / 100 := by rw [hyr]
  subst hyy
  subst hm
  unfold daysFromCivil
  dsimp only
  split_ifs <;> (try simp only [Int.add_sub_cancel, Int.sub_add_cancel]) <;> omega

/-- Round trip: converting a day count to a civil date and back is the
identity. -/
theorem daysFromCivil_civilFromDays (n : Int) :
    daysFromCivil (civilFromDays n).year (civilFromDays n).month (civilFromDays n).day = n := by
  unfold civilFromDays
  dsimp only
  exact roundtripCore n _ _ _ _ _ _ _ _ _ _ rfl rfl rfl rfl rfl rfl rfl rfl rfl rfl

/-- civilFromDays is injective. -/
theorem civilFromDays_inj {a b : Int} (h : civilFromDays a = civilFromDays b) : a = b := by
  have ha := daysFromCivil_civilFromDays a
  have hb := daysFromCivil_civilFromDays b
  rw [h] at ha
  omega

/-- The Boolean leap test unfolded to arithmetic. -/
theorem isLeap_iff (y : Int) : isLeap y = true ↔ (y % 4 = 0 ∧ (¬ y % 100 = 0 ∨ y % 400 = 0)) := by
  unfold isLeap
  simp only [Bool.and_eq_true, Bool.or_eq_true, beq_iff_eq, bne_iff_ne, ne_eq]

set_option maxHeartbeats 4000000 in
/-- Validity over named intermediates: civilFromDays yields a month in
1..12 and a day within the Go month length. -/
theorem validCore (n z era doe yoe y doy mp d m yy : Int)
    (hz : z = n + 719468) (hera : era = z / 146097) (hdoe : doe = z - era * 146097)
    (hyoe : yoe = (doe - doe / 1460 + doe / 36524 - doe / 146096) / 365)
    (hy : y = yoe + era * 400)
    (hdoy : doy = doe - (365 * yoe + yoe / 4 - yoe / 100))
    (hmp : mp = (5 * doy + 2) / 153)
    (hd : d = doy - (153 * mp + 2) / 5 + 1)
    (hm : m = if mp < 10 then mp + 3 else mp - 9)
    (hyy : yy = if m ≤ 2 then y + 1 else y) :
    1 ≤ m ∧ m ≤ 12 ∧ 1 ≤ d ∧ d ≤ daysInMonth yy m := by
  have hdoeB : 0 ≤ doe ∧ doe ≤ 146096 := by omega
  have hB := yoeDoyFacts doe (doe / 1460) (doe / 36524) (doe / 146096) yoe (yoe / 4) (yoe / 100)
    hdoeB.1 hdoeB.2 rfl rfl rfl hyoe rfl rfl
  have hdoyB : 0 ≤ doy ∧ doy ≤ 365 := by omega
  have hmp0 : 0 ≤ mp := by omega
  have hmp11 : mp ≤ 11 := by omega
  have hLeapOf : doy = 365 → isLeap yy = true := by
    intro h365
    have h5 := hB.2.2.2.2 (by omega)
    rw [isLeap_iff]
    rcases h5 with ⟨h4, h99 | h399⟩
    · have hmpv : mp = 11 := by omega
      have hmv : m = 2 := by omega
      have hyyv : yy = y + 1 := by omega
      constructor
      · omega
      · left
        omega
    · have hmpv : mp = 11 := by omega
      have hmv : m = 2 := by omega
      have hyyv : yy = y + 1 := by omega
      constructor
      · omega
      · right
        omega
  rcases eq_or_ne mp 11 with hmp11e | hmpNe
  · have hmv : m = 2 := by rw [hmp11e] at hm; norm_num at hm; exact hm
    subst hmv
    refine ⟨by norm_num, by norm_num, by omega, ?_⟩
    have hyyv : yy = y + 1 := by norm_num at hyy; exact hyy
    simp only [daysInMonth]
    norm_num
    by_cases hL : isLeap yy = true
    · rw [if_pos hL]
      omega
    · rw [if_neg hL]
      have hn365 : ¬ doy = 365 := fun hcon => hL (hLeapOf hcon)
      omega
  · have hmpTen : mp ≤ 10 := by omega
    interval_cases mp <;> norm_num at hm <;> subst hm <;>
      refine ⟨by norm_num, by norm_num, by omega, ?_⟩ <;>
      simp only [daysInMonth] <;> norm_num <;> omega

/-- civilFromDays yields a valid Go date: month 1..12 and day within the
month. -/
theorem civilFromDays_valid (n : Int) :
    1 ≤ (civilFromDays n).month ∧ (civilFromDays n).month ≤ 12 ∧
    1 ≤ (civilFromDays n).day ∧
    (civilFromDays n).day ≤ daysInMonth (civilFromDays n).year (civilFromDays n).month := by
  unfold civilFromDays
  dsimp only
  exact validCore n _ _ _ _ _ _ _ _ _ _ rfl rfl rfl rfl rfl rfl rfl rfl rfl rfl

/-- daysFromCivil is linear in the day component. -/
theorem daysFromCivil_day_lin (y m d : Int) :
    daysFromCivil y m d = daysFromCivil y m 1 + (d - 1) := by
  unfold daysFromCivil
  dsimp only
  split_ifs <;> omega

/-- Day/second decomposition of an instant. -/
theorem dayOf_secOfDay (t : Int) :
    86400 * dayOf t + secOfDay t = t ∧ 0 ≤ secOfDay t ∧ secOfDay t < 86400 := by
  unfold dayOf secOfDay
  omega

/-- Two instants share a Format(2006-01-02) date string exactly when they
lie on the same epoch day. -/
theorem dateOf_eq_iff (a b : Int) : dateOf a = dateOf b ↔ dayOf a = dayOf b := by
  constructor
  · exact fun h => civilFromDays_inj h
  · intro h
    unfold dateOf
    rw [h]

/-- AddDate with only a day delta shifts the instant by exactly that many
86400-second days (UTC has no daylight shifts). -/
theorem addDate_days (t k : Int) : addDate t 0 0 k = t + 86400 * k := by
  unfold addDate goDateDays
  dsimp only
  have hv := civilFromDays_valid (dayOf t)
  have hrt := daysFromCivil_civilFromDays (dayOf t)
  obtain ⟨Y, M, D, hc⟩ : ∃ Y M D, civilFromDays (dayOf t) = ⟨Y, M, D⟩ := ⟨_, _, _, rfl⟩
  rw [hc] at hv hrt ⊢
  dsimp only at hv hrt ⊢
  simp only [add_zero]
  have e1 : Y + (M - 1) / 12 = Y := by omega
  have e2 : (M - 1) % 12 + 1 = M := by omega
  rw [e1, e2]
  have h1 := daysFromCivil_day_lin Y M (D + k)
  have h2 := daysFromCivil_day_lin Y M D
  have key : daysFromCivil Y M (D + k) = dayOf t + k := by
    rw [h1, ← hrt, h2]
    ring
  rw [key]
  have hts : (dayOf t + k) * 86400 + secOfDay t = t + 86400 * k := by
    unfold dayOf secOfDay
    omega
  exact hts

/-- Day count difference of consecutive years at a fixed valid month/day:
365 or 366. -/
theorem yearStartDiff (w : Int) :
    365 ≤ (146097 * ((w + 1) / 400) + 365 * ((w + 1) - (w + 1) / 400 * 400) +
        ((w + 1) - (w + 1) / 400 * 400) / 4 - ((w + 1) - (w + 1) / 400 * 400) / 100) -
        (146097 * (w / 400) + 365 * (w - w / 400 * 400) +
        (w - w / 400 * 400) / 4 - (w - w / 400 * 400) / 100) ∧
    (146097 * ((w + 1) / 400) + 365 * ((w + 1) - (w + 1) / 400 * 400) +
        ((w + 1) - (w + 1) / 400 * 400) / 4 - ((w + 1) - (w + 1) / 400 * 400) / 100) -
        (146097 * (w / 400) + 365 * (w - w / 400 * 400) +
        (w - w / 400 * 400) / 4 - (w - w / 400 * 400) / 100) ≤ 366 := by
  have h1 : w / 400 ≤ (w + 1) / 400 ∧ (w + 1) / 400 ≤ w / 400 + 1 := by omega
  rcases eq_or_ne ((w + 1) / 400) (w / 400) with he | he
  · rw [he]
    have hy1 : 0 ≤ w - w / 400 * 400 ∧ w - w / 400 * 400 ≤ 399 := by omega
    have hy2 : (w + 1) - w / 400 * 400 = (w - w / 400 * 400) + 1 := by omega
    rw [hy2]
    omega
  · have he1 : (w + 1) / 400 = w / 400 + 1 := by omega
    have hy0 : (w + 1) - (w + 1) / 400 * 400 = 0 := by omega
    have hy399 : w - w / 400 * 400 = 399 := by omega
    rw [hy0, hy399, he1]
    omega

/-- Moving a valid civil date one year forward adds 365 or 366 days. -/
theorem daysSuccYear (y m d : Int) (_h1 : 1 ≤ m) (_h2 : m ≤ 12) :
    365 ≤ daysFromCivil (y + 1) m d - daysFromCivil y m d ∧
    daysFromCivil (y + 1) m d - daysFromCivil y m d ≤ 366 := by
  unfold daysFromCivil
  dsimp only
  split_ifs with hc
  · have hAux := yearStartDiff (y - 1)
    simp only [Int.sub_add_cancel] at hAux
    omega
  · have hAux := yearStartDiff y
    omega

/-- AddDate of one year shifts an instant forward by 365 or 366 whole days,
keeping the second of day. -/
theorem addDate_one_year (t : Int) :
    ∃ L, 365 ≤ L ∧ L ≤ 366 ∧ addDate t 1 0 0 = t + 86400 * L := by
  unfold addDate goDateDays
  dsimp only
  have hv := civilFromDays_valid (dayOf t)
  have hrt := daysFromCivil_civilFromDays (dayOf t)
  obtain ⟨Y, M, D, hc⟩ : ∃ Y M D, civilFromDays (dayOf t) = ⟨Y, M, D⟩ := ⟨_, _, _, rfl⟩
  rw [hc] at hv hrt ⊢
  dsimp only at hv hrt ⊢
  simp only [add_zero]
  have e1 : Y + 1 + (M - 1) / 12 = Y + 1 := by omega
  have e2 : (M - 1) % 12 + 1 = M := by omega
  rw [e1, e2]
  have hspan := daysSuccYear Y M D hv.1 hv.2.1
  have hrd : daysFromCivil (Y + 1) M D - dayOf t =
      daysFromCivil (Y + 1) M D - daysFromCivil Y M D := by
    rw [hrt]
  refine ⟨daysFromCivil (Y + 1) M D - dayOf t, by rw [hrd]; exact hspan.1,
    by rw [hrd]; exact hspan.2, ?_⟩
  generalize daysFromCivil (Y + 1) M D = A
  unfold dayOf secOfDay
  omega

/-! ## Theorems: the recurrence expander -/

/-- Shifting by whole days shifts the epoch day. -/
theorem dayOf_add_mul (t k : Int) : dayOf (t + 86400 * k) = dayOf t + k := by
  unfold dayOf
  omega

/-- The generation loop stops when the current start reaches the end date
or the iteration bound. -/
theorem genLoop_stop (step? : Option (Int → Int)) (dur endD now yest : Int)
    (cnt : Int) (fuel : Nat) (cs : Int) (it : Nat)
    (h : ¬ (cs < endD ∧ it < 1000)) :
    genLoop step? dur endD now yest cnt (fuel + 1) cs it = [] := by
  simp only [genLoop, if_neg h]

/-- The generation loop stops when the emitted-occurrence count reaches a
positive count. -/
theorem genLoop_count_stop (step? : Option (Int → Int)) (dur endD now yest : Int)
    (cnt : Int) (fuel : Nat) (cs : Int) (it : Nat)
    (h1 : cs < endD ∧ it < 1000) (h2 : cnt > 0 ∧ (it : Int) ≥ cnt) :
    genLoop step? dur endD now yest cnt (fuel + 1) cs it = [] := by
  simp only [genLoop, if_pos h1, if_pos h2]

/-- One step of the generation loop with a recognised frequency. -/
theorem genLoop_step (f : Int → Int) (dur endD now yest : Int)
    (cnt : Int) (fuel : Nat) (cs : Int) (it : Nat)
    (h1 : cs < endD ∧ it < 1000) (h2 : ¬ (cnt > 0 ∧ (it : Int) ≥ cnt)) :
    genLoop (some f) dur endD now yest cnt (fuel + 1) cs it =
      (if dateOf cs = dateOf yest ∨ dateOf cs = dateOf now ∨ now < cs
        then [⟨cs, cs + dur⟩] else []) ++
      genLoop (some f) dur endD now yest cnt fuel (f cs) (it + 1) := by
  simp only [genLoop, if_pos h1, if_neg h2]

/-- One step of the generation loop with an unrecognised frequency: the
loop emits (or not) the current start and returns. -/
theorem genLoop_step_none (dur endD now yest : Int)
    (cnt : Int) (fuel : Nat) (cs : Int) (it : Nat)
    (h1 : cs < endD ∧ it < 1000) (h2 : ¬ (cnt > 0 ∧ (it : Int) ≥ cnt)) :
    genLoop none dur endD now yest cnt (fuel + 1) cs it =
      (if dateOf cs = dateOf yest ∨ dateOf cs = dateOf now ∨ now < cs
        then [⟨cs, cs + dur⟩] else []) := by
  simp only [genLoop, if_pos h1, if_neg h2]

/-- Every occurrence the generation loop emits starts strictly before the
end date. -/
theorem genLoop_lt_endDate (step? : Option (Int → Int)) (dur endD now yest : Int)
    (cnt : Int) :
    ∀ (fuel : Nat) (cs : Int) (it : Nat) (o : occurrence),
      o ∈ genLoop step? dur endD now yest cnt fuel cs it → o.Start < endD := by
  intro fuel
  induction fuel with
  | zero => intro cs it o h; simp [genLoop] at h
  | succ n ih =>
    intro cs it o h
    by_cases h1 : cs < endD ∧ it < 1000
    · by_cases h2 : cnt > 0 ∧ (it : Int) ≥ cnt
      · rw [genLoop_count_stop step? dur endD now yest cnt n cs it h1 h2] at h
        simp at h
      · cases hs : step? with
        | some f =>
          rw [hs, genLoop_step f dur endD now yest cnt n cs it h1 h2] at h
          rcases List.mem_append.mp h with hm | hm
          · by_cases he : dateOf cs = dateOf yest ∨ dateOf cs = dateOf now ∨ now < cs
            · rw [if_pos he] at hm
              simp at hm
              rw [hm]
              exact h1.1
            · rw [if_neg he] at hm
              simp at hm
          · rw [← hs] at hm
            exact ih (f cs) (it + 1) o hm
        | none =>
          rw [hs, genLoop_step_none dur endD now yest cnt n cs it h1 h2] at h
          by_cases he : dateOf cs = dateOf yest ∨ dateOf cs = dateOf now ∨ now < cs
          · rw [if_pos he] at h
            simp at h
            rw [h]
            exact h1.1
          · rw [if_neg he] at h
            simp at h
    · rw [genLoop_stop step? dur endD now yest cnt n cs it h1] at h
      simp at h

/-- A fast-forward loop whose step does not move and whose exit conditions
fail at the current start never terminates, for any fuel. -/
theorem fastForward_none_of_fix (step : Int → Int) (todayD : CivDate) (now cs : Int)
    (hstep : step cs = cs) (h1 : ¬ dateOf (step cs) = todayD) (h2 : ¬ now < step cs) :
    ∀ fuel, fastForward step todayD now fuel cs = none := by
  intro fuel
  induction fuel with
  | zero => rfl
  | succ n ih =>
    simp only [fastForward, if_neg h1, if_neg h2]
    rw [hstep]
    exact ih

/-- The daily fast-forward from k whole days in the past (k at least 1)
lands exactly on now once given at least k fuel. -/
theorem fastForward_daily_lands (now : Int) :
    ∀ (fuel k : Nat), 1 ≤ k → k ≤ fuel →
      fastForward (fun t => addDate t 0 0 1) (dateOf now) now fuel (now - 86400 * k) = some now := by
  intro fuel
  induction fuel with
  | zero => intro k h1 h2; omega
  | succ n ih =>
    intro k h1 h2
    have hstep : addDate (now - 86400 * (k : Int)) 0 0 1 = now - 86400 * ((k : Int) - 1) := by
      rw [addDate_days]
      ring
    rcases eq_or_ne k 1 with hk1 | hkn
    · subst hk1
      simp only [fastForward]
      rw [hstep]
      norm_num
    · have hk2 : 2 ≤ k := by omega
      simp only [fastForward]
      rw [hstep]
      have hd : ¬ dateOf (now - 86400 * ((k : Int) - 1)) = dateOf now := by
        rw [dateOf_eq_iff]
        have hsp : now - 86400 * ((k : Int) - 1) = now + 86400 * (-((k : Int) - 1)) := by ring
        rw [hsp, dayOf_add_mul]
        omega
      have hlt : ¬ now < now - 86400 * ((k : Int) - 1) := by omega
      rw [if_neg hd, if_neg hlt]
      have hrw : now - 86400 * ((k : Int) - 1) = now - 86400 * ((k - 1 : Nat) : Int) := by
        omega
      rw [hrw]
      exact ih (k - 1) (by omega) (by omega)

/-- Closed form of the daily generation loop started on the day of now
with unit interval, no count and a whole-day horizon: one occurrence per
day from now to the day before the horizon. -/
theorem genLoop_daily_closed (now dur : Int) (L : Int) (hL : L ≤ 366) :
    ∀ (fuel it : Nat), (it : Int) + fuel = 1000 →
      genLoop (some (fun t => addDate t 0 0 1)) dur (now + 86400 * L) now
          (addDate now 0 0 (-1)) (-1) fuel (now + 86400 * it) it =
        (List.range (L - it).toNat).map
          (fun j : Nat => occurrence.mk (now + 86400 * ((it : Int) + (j : Int)))
            (now + 86400 * ((it : Int) + (j : Int)) + dur)) := by
  intro fuel
  induction fuel with
  | zero =>
    intro it hit
    have hz : (L - (it : Int)).toNat = 0 := by omega
    rw [hz]
    rfl
  | succ n ih =>
    intro it hit
    by_cases hlt : (it : Int) < L
    · have h1 : now + 86400 * (it : Int) < now + 86400 * L ∧ it < 1000 := by
        constructor
        · omega
        · omega
      have h2 : ¬ ((-1 : Int) > 0 ∧ (it : Int) ≥ -1) := by omega
      rw [genLoop_step _ dur _ now _ (-1) n _ it h1 h2]
      have hemit : dateOf (now + 86400 * (it : Int)) = dateOf (addDate now 0 0 (-1)) ∨
          dateOf (now + 86400 * (it : Int)) = dateOf now ∨ now < now + 86400 * (it : Int) := by
        rcases eq_or_ne it 0 with h0 | h0
        · subst h0
          right; left
          norm_num
        · right; right
          have hone : 1 ≤ (it : Int) := by omega
          omega
      rw [if_pos hemit]
      have hstep : addDate (now + 86400 * (it : Int)) 0 0 1 = now + 86400 * ((it : Int) + 1) := by
        rw [addDate_days]
        ring
      rw [hstep]
      have hcast : ((it : Int) + 1) = ((it + 1 : Nat) : Int) := by push_cast; ring
      rw [hcast, ih (it + 1) (by omega)]
      have hn : (L - (it : Int)).toNat = (L - ((it + 1 : Nat) : Int)).toNat + 1 := by
        push_cast
        omega
      rw [hn, List.range_succ_eq_map, List.map_cons, List.map_map]
      push_cast
      norm_num
      intro a ha
      omega
    · have h1 : ¬ (now + 86400 * (it : Int) < now + 86400 * L ∧ it < 1000) := by
        intro hcon
        omega
      rw [genLoop_stop _ dur _ now _ (-1) n _ it h1]
      have hz : (L - (it : Int)).toNat = 0 := by omega
      rw [hz]
      rfl

/-- If the start does not trigger the fast-forward, its calendar day is
yesterday or today, or it lies strictly in the future of now: the emit
condition of the generation loop holds at the start. -/
theorem emit_of_not_ff (start now : Int)
    (h : ¬ (start < addDate now 0 0 (-1) ∧ dateOf start ≠ dateOf now ∧
        dateOf start ≠ dateOf (addDate now 0 0 (-1)))) :
    dateOf start = dateOf (addDate now 0 0 (-1)) ∨ dateOf start = dateOf now ∨ now < start := by
  by_cases h1 : dateOf start = dateOf now
  · exact Or.inr (Or.inl h1)
  by_cases h2 : dateOf start = dateOf (addDate now 0 0 (-1))
  · exact Or.inl h2
  have h3 : ¬ (start < addDate now 0 0 (-1)) := fun hlt => h ⟨hlt, h1, h2⟩
  refine Or.inr (Or.inr ?_)
  have hy : addDate now 0 0 (-1) = now + 86400 * (-1) := addDate_days now (-1)
  rw [dateOf_eq_iff] at h1 h2
  rw [hy] at h2 h3
  rw [dayOf_add_mul] at h2
  by_contra hc
  simp only [dayOf] at h1 h2
  omega

/-- A rule whose frequency is none of the four recognised ones has no step
function. -/
theorem stepOf_none_of_unknown (freq : List Char) (interval : Int)
    (h1 : freq ≠ "DAILY".data) (h2 : freq ≠ "WEEKLY".data)
    (h3 : freq ≠ "MONTHLY".data) (h4 : freq ≠ "YEARLY".data) :
    stepOf freq interval = none := by
  unfold stepOf
  rw [if_neg h1, if_neg h2, if_neg h3, if_neg h4]

/-- C5 (claim, confirmed).  For every rule whose parse yields frequency
MONTHLY and an UNTIL bound earlier than the horizon, expandRecurringEvent
never emits an occurrence starting after UNTIL, and the effective expansion
bound is the minimum of the horizon and the parsed UNTIL. -/
theorem C5_monthly_until_bounds (ffFuel : Nat) (start endT maxD now : Int)
    (rrule : String) (u : Int) (occs : List occurrence)
    (_hfreq : (parseRRule rrule).freq = "MONTHLY".data)
    (hu : (parseRRule rrule).untilT = some u)
    (hlt : u < maxD)
    (hexp : expandRecurringEvent ffFuel start endT rrule maxD now = some occs) :
    (∀ o ∈ occs, ¬ u < o.Start) ∧
    effectiveEnd maxD (parseRRule rrule).untilT = min maxD u := by
  have hend : effectiveEnd maxD (parseRRule rrule).untilT = u := by
    rw [hu]
    unfold effectiveEnd
    dsimp only
    rw [if_pos hlt]
  constructor
  · intro o ho
    unfold expandRecurringEvent at hexp
    dsimp only at hexp
    rw [hend] at hexp
    by_cases hff : start < addDate now 0 0 (-1) ∧ dateOf start ≠ dateOf now ∧
        dateOf start ≠ dateOf (addDate now 0 0 (-1))
    · rw [if_pos hff] at hexp
      rcases hs : stepOf (parseRRule rrule).freq (parseRRule rrule).interval with _ | f
      · rw [hs] at hexp
        dsimp only at hexp
        have hocc : occs = [] := by
          cases hexp
          rfl
        subst hocc
        simp at ho
      · rw [hs] at hexp
        dsimp only at hexp
        rcases hf : fastForward f (dateOf now) now ffFuel start with _ | cs
        · rw [hf] at hexp
          simp at hexp
        · rw [hf] at hexp
          dsimp only at hexp
          by_cases hcs : u < cs
          · rw [if_pos hcs] at hexp
            have hocc : occs = [] := by
              cases hexp
              rfl
            subst hocc
            simp at ho
          · rw [if_neg hcs] at hexp
            have hocc : occs = genLoop (stepOf (parseRRule rrule).freq (parseRRule rrule).interval)
                (endT - start) u now (addDate now 0 0 (-1)) (parseRRule rrule).count 1000 cs 0 := by
              rw [hs]
              cases hexp
              rfl
            subst hocc
            have hb := genLoop_lt_endDate (stepOf (parseRRule rrule).freq (parseRRule rrule).interval)
              (endT - start) u now (addDate now 0 0 (-1)) (parseRRule rrule).count 1000 cs 0 o ho
            omega
    · rw [if_neg hff] at hexp
      have hocc : occs = genLoop (stepOf (parseRRule rrule).freq (parseRRule rrule).interval)
          (endT - start) u now (addDate now 0 0 (-1)) (parseRRule rrule).count 1000 start 0 := by
        cases hexp
        rfl
      subst hocc
      have hb := genLoop_lt_endDate (stepOf (parseRRule rrule).freq (parseRRule rrule).interval)
        (endT - start) u now (addDate now 0 0 (-1)) (parseRRule rrule).count 1000 start 0 o ho
      omega
  · rw [hend]
    omega

/-- Witness for C5 at a concrete monthly rule with UNTIL before the
horizon. -/
theorem C5_witness :
    (∀ o ∈ [occurrence.mk 1700000000 1700003600, occurrence.mk 1702592000 1702595600,
        occurrence.mk 1705270400 1705274000], ¬ (1705276800 : Int) < o.Start) ∧
    effectiveEnd 1731622400 (parseRRule "FREQ=MONTHLY;UNTIL=20240115T000000Z").untilT =
      min 1731622400 1705276800 := by
  exact C5_monthly_until_bounds 10 1700000000 1700003600 1731622400 1700000000
    "FREQ=MONTHLY;UNTIL=20240115T000000Z" 1705276800
    [occurrence.mk 1700000000 1700003600, occurrence.mk 1702592000 1702595600,
      occurrence.mk 1705270400 1705274000]
    (by decide) (by decide) (by decide) (by decide)

/-- C1 (claim, code bug).  The iteration cap protects only the generation
loop: with FREQ=DAILY;INTERVAL=0 and a start two days before now the
fast-forward loop repeats the same instant forever, so expandRecurringEvent
does not terminate for any fuel (modelled as none for every fuel), contrary
to the claim that the 1000-iteration safety cap bounds every expansion. -/
theorem C1_interval_zero_diverges :
    ∀ ffFuel : Nat, expandRecurringEvent ffFuel 1699827200 1699830800
      "FREQ=DAILY;INTERVAL=0" 1731536000 1700000000 = none := by
  intro fuel
  unfold expandRecurringEvent
  dsimp only
  have hp : parseRRule "FREQ=DAILY;INTERVAL=0" =
      ⟨"DAILY".data, 0, none, -1⟩ := by decide
  rw [hp]
  dsimp only
  have hs : stepOf "DAILY".data 0 = some (fun t => addDate t 0 0 0) := rfl
  rw [hs]
  dsimp only
  have hcond : (1699827200 : Int) < addDate 1700000000 0 0 (-1) ∧
      dateOf (1699827200 : Int) ≠ dateOf (1700000000 : Int) ∧
      dateOf (1699827200 : Int) ≠ dateOf (addDate 1700000000 0 0 (-1)) := by decide
  rw [if_pos hcond]
  have hfix := fastForward_none_of_fix (fun t => addDate t 0 0 0) (dateOf 1700000000)
    1700000000 1699827200 (by decide) (by decide) (by decide)
  rw [hfix fuel]

/-- C3 (claim, corrected).  With a frequency other than
DAILY/WEEKLY/MONTHLY/YEARLY the expander never errors, and the result is
empty whenever the start lies more than a day in the past or at/after the
horizon — but when the start is on yesterday, today, or in the future and
before the horizon, the loop still emits the initial occurrence before the
unknown-frequency switch returns, so the list is NOT always empty. -/
theorem C3_unknown_freq (ffFuel : Nat) (start endT maxD now : Int) (rrule : String)
    (h1 : (parseRRule rrule).freq ≠ "DAILY".data)
    (h2 : (parseRRule rrule).freq ≠ "WEEKLY".data)
    (h3 : (parseRRule rrule).freq ≠ "MONTHLY".data)
    (h4 : (parseRRule rrule).freq ≠ "YEARLY".data) :
    expandRecurringEvent ffFuel start endT rrule maxD now =
      some (if start < addDate now 0 0 (-1) ∧ dateOf start ≠ dateOf now ∧
            dateOf start ≠ dateOf (addDate now 0 0 (-1)) then []
          else if start < effectiveEnd maxD (parseRRule rrule).untilT
            then [occurrence.mk start (start + (endT - start))] else []) := by
  have hs := stepOf_none_of_unknown ((parseRRule rrule).freq)
    ((parseRRule rrule).interval) h1 h2 h3 h4
  unfold expandRecurringEvent
  dsimp only
  rw [hs]
  by_cases hff : start < addDate now 0 0 (-1) ∧ dateOf start ≠ dateOf now ∧
      dateOf start ≠ dateOf (addDate now 0 0 (-1))
  · rw [if_pos hff, if_pos hff]
  · rw [if_neg hff, if_neg hff]
    congr 1
    by_cases hend : start < effectiveEnd maxD (parseRRule rrule).untilT
    · rw [if_pos hend]
      rw [show (1000 : Nat) = 999 + 1 from rfl]
      rw [genLoop_step_none (endT - start) (effectiveEnd maxD (parseRRule rrule).untilT)
        now (addDate now 0 0 (-1)) ((parseRRule rrule).count) 999 start 0
        ⟨hend, by norm_num⟩ (by omega)]
      rw [if_pos (emit_of_not_ff start now hff)]
    · rw [if_neg hend]
      rw [show (1000 : Nat) = 999 + 1 from rfl]
      rw [genLoop_stop none (endT - start) (effectiveEnd maxD (parseRRule rrule).untilT)
        now (addDate now 0 0 (-1)) ((parseRRule rrule).count) 999 start 0
        (fun hcon => hend hcon.1)]

/-- Witness for C3: FREQ=FORTNIGHTLY with start = now, horizon just past the
start; the hypotheses hold and the theorem applies. -/
theorem C3_witness :
    (parseRRule "FREQ=FORTNIGHTLY").freq ≠ "DAILY".data ∧
    (parseRRule "FREQ=FORTNIGHTLY").freq ≠ "WEEKLY".data ∧
    (parseRRule "FREQ=FORTNIGHTLY").freq ≠ "MONTHLY".data ∧
    (parseRRule "FREQ=FORTNIGHTLY").freq ≠ "YEARLY".data ∧
    expandRecurringEvent 10 1700000000 1700003600 "FREQ=FORTNIGHTLY" 1700001000 1700000000 =
      some (if (1700000000 : Int) < addDate 1700000000 0 0 (-1) ∧
            dateOf (1700000000 : Int) ≠ dateOf (1700000000 : Int) ∧
            dateOf (1700000000 : Int) ≠ dateOf (addDate 1700000000 0 0 (-1)) then []
          else if (1700000000 : Int) <
              effectiveEnd 1700001000 (parseRRule "FREQ=FORTNIGHTLY").untilT
            then [occurrence.mk 1700000000 (1700000000 + (1700003600 - 1700000000))] else []) :=
  ⟨by decide, by decide, by decide, by decide,
    C3_unknown_freq 10 1700000000 1700003600 1700001000 1700000000 "FREQ=FORTNIGHTLY"
      (by decide) (by decide) (by decide) (by decide)⟩

/-- Counterexample to C3 as stated: FREQ=FORTNIGHTLY with a start equal to
now and a horizon past the start yields ONE occurrence, not an empty list. -/
theorem C3_counterexample :
    expandRecurringEvent 10 1700000000 1700003600 "FREQ=FORTNIGHTLY" 1700001000 1700000000 =
      some [occurrence.mk 1700000000 1700003600] := by decide

/-- C4 (claim, corrected).  A FREQ=WEEKLY;COUNT=3 rule whose start is today
yields exactly 3 occurrences 7 days apart — but only when the horizon
reaches past start + 14 days; the claim's "for every horizon" fails, since
the loop also stops at the effective horizon (see the counterexample). -/
theorem C4_weekly_count3 (ffFuel : Nat) (start endT maxD now : Int) (rrule : String)
    (hp : parseRRule rrule = ⟨"WEEKLY".data, 1, none, 3⟩)
    (hday : dateOf start = dateOf now)
    (hhor : start + 86400 * 14 < maxD) :
    expandRecurringEvent ffFuel start endT rrule maxD now =
      some [occurrence.mk start (start + (endT - start)),
        occurrence.mk (start + 86400 * 7) (start + 86400 * 7 + (endT - start)),
        occurrence.mk (start + 86400 * 14) (start + 86400 * 14 + (endT - start))] := by
  unfold expandRecurringEvent
  dsimp only
  rw [hp]
  dsimp only
  have hse : effectiveEnd maxD none = maxD := rfl
  rw [hse]
  have hsw : stepOf "WEEKLY".data 1 = some (fun t => addDate t 0 0 (7 * 1)) := rfl
  rw [hsw]
  dsimp only
  have hnff : ¬ (start < addDate now 0 0 (-1) ∧ dateOf start ≠ dateOf now ∧
      dateOf start ≠ dateOf (addDate now 0 0 (-1))) := fun hcon => hcon.2.1 hday
  rw [if_neg hnff]
  have hdayn : dayOf start = dayOf now := (dateOf_eq_iff start now).mp hday
  have hsod := dayOf_secOfDay start
  have hsodn := dayOf_secOfDay now
  have hst1 : addDate start 0 0 (7 * 1) = start + 86400 * 7 := by
    rw [addDate_days]; norm_num
  have hst2 : addDate (start + 86400 * 7) 0 0 (7 * 1) = start + 86400 * 14 := by
    rw [addDate_days]; ring_nf
  have hst3 : addDate (start + 86400 * 14) 0 0 (7 * 1) = start + 86400 * 21 := by
    rw [addDate_days]; ring_nf
  congr 1
  rw [show (1000 : Nat) = 999 + 1 from rfl]
  rw [genLoop_step (fun t => addDate t 0 0 (7 * 1)) (endT - start) maxD now
    (addDate now 0 0 (-1)) 3 999 start 0 ⟨by omega, by norm_num⟩ (by omega)]
  rw [if_pos (show dateOf start = dateOf (addDate now 0 0 (-1)) ∨
    dateOf start = dateOf now ∨ now < start from Or.inr (Or.inl hday))]
  try dsimp only
  rw [hst1]
  rw [show (999 : Nat) = 998 + 1 from rfl]
  rw [genLoop_step (fun t => addDate t 0 0 (7 * 1)) (endT - start) maxD now
    (addDate now 0 0 (-1)) 3 998 (start + 86400 * 7) 1 ⟨by omega, by norm_num⟩ (by omega)]
  rw [if_pos (show dateOf (start + 86400 * 7) = dateOf (addDate now 0 0 (-1)) ∨
    dateOf (start + 86400 * 7) = dateOf now ∨ now < start + 86400 * 7 from
    Or.inr (Or.inr (by omega)))]
  try dsimp only
  rw [hst2]
  rw [show (998 : Nat) = 997 + 1 from rfl]
  rw [genLoop_step (fun t => addDate t 0 0 (7 * 1)) (endT - start) maxD now
    (addDate now 0 0 (-1)) 3 997 (start + 86400 * 14) 2 ⟨by omega, by norm_num⟩ (by omega)]
  rw [if_pos (show dateOf (start + 86400 * 14) = dateOf (addDate now 0 0 (-1)) ∨
    dateOf (start + 86400 * 14) = dateOf now ∨ now < start + 86400 * 14 from
    Or.inr (Or.inr (by omega)))]
  try dsimp only
  rw [hst3]
  by_cases hq : start + 86400 * 21 < maxD
  · rw [show (997 : Nat) = 996 + 1 from rfl]
    rw [genLoop_count_stop (some (fun t => addDate t 0 0 (7 * 1))) (endT - start) maxD now
      (addDate now 0 0 (-1)) 3 996 (start + 86400 * 21) 3 ⟨hq, by norm_num⟩ (by omega)]
    simp
  · rw [show (997 : Nat) = 996 + 1 from rfl]
    rw [genLoop_stop (some (fun t => addDate t 0 0 (7 * 1))) (endT - start) maxD now
      (addDate now 0 0 (-1)) 3 996 (start + 86400 * 21) 3 (fun hcon => hq hcon.1)]
    simp

/-- Witness for C4: the weekly rule started at now = 2023-11-14T22:13:20Z
with a one-year horizon; the hypotheses hold and the theorem applies. -/
theorem C4_witness :
    parseRRule "FREQ=WEEKLY;COUNT=3" = ⟨"WEEKLY".data, 1, none, 3⟩ ∧
    dateOf (1700000000 : Int) = dateOf (1700000000 : Int) ∧
    (1700000000 : Int) + 86400 * 14 < 1731622400 ∧
    expandRecurringEvent 10 1700000000 1700003600 "FREQ=WEEKLY;COUNT=3" 1731622400 1700000000 =
      some [occurrence.mk 1700000000 (1700000000 + (1700003600 - 1700000000)),
        occurrence.mk (1700000000 + 86400 * 7) (1700000000 + 86400 * 7 + (1700003600 - 1700000000)),
        occurrence.mk (1700000000 + 86400 * 14)
          (1700000000 + 86400 * 14 + (1700003600 - 1700000000))] :=
  ⟨by decide, rfl, by decide,
    C4_weekly_count3 10 1700000000 1700003600 1731622400 1700000000 "FREQ=WEEKLY;COUNT=3"
      (by decide) rfl (by decide)⟩

/-- Counterexample to C4 as stated: the same weekly COUNT=3 rule with the
horizon equal to the start yields zero occurrences, not 3 — the horizon is
not irrelevant. -/
theorem C4_counterexample :
    expandRecurringEvent 10 1700000000 1700003600 "FREQ=WEEKLY;COUNT=3" 1700000000 1700000000 =
      some [] := by decide

/-- The daily generation loop from its start instant: specialisation of the
closed form to iteration 0. -/
theorem genLoop_daily_start (now dur L : Int) (hL : L ≤ 366) :
    genLoop (some (fun t => addDate t 0 0 1)) dur (now + 86400 * L) now
        (addDate now 0 0 (-1)) (-1) 1000 now 0 =
      (List.range L.toNat).map
        (fun j : Nat => occurrence.mk (now + 86400 * (j : Int)) (now + 86400 * (j : Int) + dur)) := by
  have h := genLoop_daily_closed now dur L hL 1000 0 (by norm_num)
  simp only [Nat.cast_zero, mul_zero, add_zero, zero_add, sub_zero] at h
  exact h

/-- Full evaluation of the expander for a plain daily rule with the start 40
days in the past and a one-year horizon: the fast-forward loop lands exactly
on now (skipping yesterday), and the loop then emits one occurrence per day
from today to the day before the horizon. -/
theorem expand_daily_closed (ffFuel : Nat) (now endT : Int) (rrule : String)
    (hp : parseRRule rrule = ⟨"DAILY".data, 1, none, -1⟩)
    (hf : 40 ≤ ffFuel) :
    ∃ L : Int, 365 ≤ L ∧ L ≤ 366 ∧ addDate now 1 0 0 = now + 86400 * L ∧
      expandRecurringEvent ffFuel (addDate now 0 0 (-40)) endT rrule (addDate now 1 0 0) now =
        some ((List.range L.toNat).map fun j : Nat =>
          occurrence.mk (now + 86400 * (j : Int))
            (now + 86400 * (j : Int) + (endT - addDate now 0 0 (-40)))) := by
  obtain ⟨L, hL1, hL2, hLeq⟩ := addDate_one_year now
  refine ⟨L, hL1, hL2, hLeq, ?_⟩
  have hstart : addDate now 0 0 (-40) = now - 86400 * 40 := by
    rw [addDate_days]; ring_nf
  unfold expandRecurringEvent
  dsimp only
  rw [hp]
  dsimp only
  have hse : effectiveEnd (addDate now 1 0 0) none = addDate now 1 0 0 := rfl
  rw [hse]
  have hsd : stepOf "DAILY".data 1 = some (fun t => addDate t 0 0 1) := rfl
  rw [hsd]
  try dsimp only
  have hyeq : addDate now 0 0 (-1) = now + 86400 * (-1) := addDate_days now (-1)
  have hd40 : dayOf (addDate now 0 0 (-40)) = dayOf now - 40 := by
    rw [hstart, show (now - 86400 * 40 : Int) = now + 86400 * (-40) by ring, dayOf_add_mul]
    ring
  have hdy : dayOf (addDate now 0 0 (-1)) = dayOf now - 1 := by
    rw [hyeq, dayOf_add_mul]; ring
  have hcond : addDate now 0 0 (-40) < addDate now 0 0 (-1) ∧
      dateOf (addDate now 0 0 (-40)) ≠ dateOf now ∧
      dateOf (addDate now 0 0 (-40)) ≠ dateOf (addDate now 0 0 (-1)) := by
    refine ⟨by rw [hstart, hyeq]; omega, fun hcon => ?_, fun hcon => ?_⟩
    · have h := (dateOf_eq_iff _ _).mp hcon; omega
    · have h := (dateOf_eq_iff _ _).mp hcon; omega
  rw [if_pos hcond]
  rw [hstart]
  rw [show (now - 86400 * 40 : Int) = now - 86400 * ((40 : Nat) : Int) by norm_num]
  rw [fastForward_daily_lands now ffFuel 40 (by norm_num) hf]
  try dsimp only
  rw [show (now - 86400 * ((40 : Nat) : Int) : Int) = now - 86400 * 40 by norm_num]
  rw [hLeq]
  rw [if_neg (show ¬ now + 86400 * L < now by omega)]
  congr 1
  rw [genLoop_daily_start now (endT - (now - 86400 * 40)) L hL2]

/-- C2 (claim, corrected).  For a plain daily rule with the start 40 days in
the past and a one-year horizon, the expansion yields exactly one occurrence
per calendar day from TODAY (not yesterday) through the horizon: the
fast-forward loop's stop test compares dates with today only, so it steps
over yesterday, and no emitted occurrence lies on yesterday's day. -/
theorem C2_daily_from_today (ffFuel : Nat) (now endT : Int) (rrule : String)
    (hp : parseRRule rrule = ⟨"DAILY".data, 1, none, -1⟩)
    (hf : 40 ≤ ffFuel) :
    ∃ (L : Int) (occs : List occurrence), 365 ≤ L ∧ L ≤ 366 ∧
      addDate now 1 0 0 = now + 86400 * L ∧
      expandRecurringEvent ffFuel (addDate now 0 0 (-40)) endT rrule (addDate now 1 0 0) now
        = some occs ∧
      occs.length = L.toNat ∧
      (∀ o ∈ occs, dayOf now ≤ dayOf o.Start) ∧
      (∀ d : Int, 0 ≤ d → d < L → ∃ o ∈ occs, dayOf o.Start = dayOf now + d) := by
  obtain ⟨L, hL1, hL2, hLeq, hexp⟩ := expand_daily_closed ffFuel now endT rrule hp hf
  refine ⟨L, _, hL1, hL2, hLeq, hexp, ?_, ?_, ?_⟩
  · simp
  · intro o ho
    simp only [List.mem_map, List.mem_range] at ho
    obtain ⟨j, hj, rfl⟩ := ho
    dsimp only
    rw [dayOf_add_mul]
    omega
  · intro d hd0 hdL
    have hmem : (occurrence.mk (now + 86400 * ((d.toNat : Nat) : Int))
        (now + 86400 * ((d.toNat : Nat) : Int) + (endT - addDate now 0 0 (-40)))) ∈
        (List.range L.toNat).map (fun j : Nat => occurrence.mk (now + 86400 * (j : Int))
          (now + 86400 * (j : Int) + (endT - addDate now 0 0 (-40)))) := by
      simp only [List.mem_map, List.mem_range]
      exact ⟨d.toNat, by omega, rfl⟩
    refine ⟨_, hmem, ?_⟩
    dsimp only
    rw [dayOf_add_mul]
    omega

/-- Witness for C2: the daily rule at now = 2023-11-14T22:13:20Z with
fast-forward fuel 40; the hypotheses hold and the theorem applies. -/
theorem C2_witness :
    parseRRule "FREQ=DAILY;INTERVAL=1" = ⟨"DAILY".data, 1, none, -1⟩ ∧
    (40 : Nat) ≤ 40 ∧
    (∃ (L : Int) (occs : List occurrence), 365 ≤ L ∧ L ≤ 366 ∧
      addDate 1700000000 1 0 0 = 1700000000 + 86400 * L ∧
      expandRecurringEvent 40 (addDate 1700000000 0 0 (-40)) 1700003600 "FREQ=DAILY;INTERVAL=1"
        (addDate 1700000000 1 0 0) 1700000000 = some occs ∧
      occs.length = L.toNat ∧
      (∀ o ∈ occs, dayOf (1700000000 : Int) ≤ dayOf o.Start) ∧
      (∀ d : Int, 0 ≤ d → d < L → ∃ o ∈ occs, dayOf o.Start = dayOf (1700000000 : Int) + d)) :=
  ⟨by decide, by decide,
    C2_daily_from_today 40 1700000000 1700003600 "FREQ=DAILY;INTERVAL=1" (by decide) (by decide)⟩

/-- Counterexample to C2 as stated: in the concrete daily expansion the
occurrence list is nonempty and contains NO occurrence on yesterday's
calendar day, so the series does not start from yesterday. -/
theorem C2_counterexample :
    ∃ occs : List occurrence,
      expandRecurringEvent 40 (addDate 1700000000 0 0 (-40)) 1700003600 "FREQ=DAILY;INTERVAL=1"
        (addDate 1700000000 1 0 0) 1700000000 = some occs ∧
      occs ≠ [] ∧
      ∀ o ∈ occs, dayOf o.Start ≠ dayOf (1700000000 : Int) - 1 := by
  obtain ⟨L, hL1, hL2, hLeq, hexp⟩ := expand_daily_closed 40 1700000000 1700003600
    "FREQ=DAILY;INTERVAL=1" (by decide) (by decide)
  refine ⟨_, hexp, ?_, ?_⟩
  · intro hcon
    have hlen := congrArg List.length hcon
    simp at hlen
    omega
  · intro o ho
    simp only [List.mem_map, List.mem_range] at ho
    obtain ⟨j, hj, rfl⟩ := ho
    dsimp only
    rw [dayOf_add_mul]
    omega

/-- The event returned by createEventOnRadicale is the UID-assigned event in
every outcome of the request. -/
theorem createEvent_fst (nowT : Int) (url : String) (ev0 : Event)
    (server : String → String → Option HttpResp) :
    (createEventOnRadicale nowT url ev0 server).1 = assignUID nowT ev0 := by
  unfold createEventOnRadicale
  dsimp only
  cases server (eventPutURL url (assignUID nowT ev0).UID) (eventICSContent (assignUID nowT ev0)) with
  | none => rfl
  | some r =>
    by_cases h : r.status ≠ 201 ∧ r.status ≠ 204
    · dsimp only
      rw [if_pos h]
    · dsimp only
      rw [if_neg h]

/-- C10 (claim, confirmed).  An event arriving with an empty UID gets the
current-time-derived UID before the PUT is issued, and the caller-visible
event keeps that UID in every outcome — transport error and non-201/204
status included; nothing restores the old state on failure. -/
theorem C10_empty_uid_persists (nowT : Int) (calendarURL : String) (ev0 : Event)
    (server : String → String → Option HttpResp)
    (huid : ev0.UID = "") :
    (createEventOnRadicale nowT calendarURL ev0 server).1 =
      { ev0 with UID := (⟨formatTS nowT⟩ : String) ++ "@mytuicalendar" } := by
  rw [createEvent_fst]
  unfold assignUID
  rw [if_pos huid]

/-- Witness for C10: a concrete UID-less event PUT against a server that
answers 500; the upload fails but the assigned UID persists. -/
theorem C10_witness :
    (Event.mk "Standup" 1700000000 1700003600 "" "work" "205" "").UID = "" ∧
    (createEventOnRadicale 1700000000 "http://radicale/work"
        (Event.mk "Standup" 1700000000 1700003600 "" "work" "205" "")
        (fun _ _ => some (HttpResp.mk 500 "boom"))).1 =
      { Event.mk "Standup" 1700000000 1700003600 "" "work" "205" "" with
        UID := (⟨formatTS 1700000000⟩ : String) ++ "@mytuicalendar" } :=
  ⟨rfl, C10_empty_uid_persists 1700000000 "http://radicale/work"
    (Event.mk "Standup" 1700000000 1700003600 "" "work" "205" "")
    (fun _ _ => some (HttpResp.mk 500 "boom")) rfl⟩

/-- A single remaining base path: discovery succeeds exactly with that
path's usable entries. -/
theorem discLoop_single (sU username : String) (resp : String → PropfindResult)
    (p : String) (lastErr : Option DiscFail) (cals : List CalDAVCalendar)
    (h : discLoop sU username resp [p] [] lastErr = .ok cals) :
    ∃ rs, resp (sU ++ p) = .ok rs ∧ cals = processResponses sU p username rs ∧ cals ≠ [] := by
  rw [discLoop.eq_def] at h
  dsimp only at h
  rcases hr : resp (sU ++ p) with _ | ⟨st, body⟩ | _ | rs
  · rw [hr] at h
    simp [discLoop] at h
  · rw [hr] at h
    simp [discLoop] at h
  · rw [hr] at h
    simp [discLoop] at h
  · rw [hr] at h
    dsimp only at h
    by_cases hrs : rs = []
    · rw [if_pos hrs] at h
      cases lastErr <;> simp [discLoop] at h
    · rw [if_neg hrs] at h
      try dsimp only at h
      simp only [List.nil_append] at h
      by_cases hne : processResponses sU p username rs ≠ []
      · rw [if_pos hne] at h
        have hc := Except.ok.inj h
        exact ⟨rs, rfl, hc.symm, hc ▸ hne⟩
      · rw [if_neg hne] at h
        cases lastErr <;> simp [discLoop] at h

/-- The two-path base loop of discovery from an empty accumulator: a
successful result is the usable entries of exactly one path — the first
whose usable entries are non-empty — never a merge of both. -/
theorem discLoop_two (sU username : String) (resp : String → PropfindResult)
    (p1 p2 : String) (cals : List CalDAVCalendar)
    (h : discLoop sU username resp [p1, p2] [] none = .ok cals) :
    cals ≠ [] ∧
    ((∃ rs, resp (sU ++ p1) = .ok rs ∧ cals = processResponses sU p1 username rs) ∨
     ((∀ rs, resp (sU ++ p1) = .ok rs → processResponses sU p1 username rs = []) ∧
      ∃ rs, resp (sU ++ p2) = .ok rs ∧ cals = processResponses sU p2 username rs)) := by
  rw [discLoop.eq_def] at h
  dsimp only at h
  rcases hr : resp (sU ++ p1) with _ | ⟨st, body⟩ | _ | rs
  · rw [hr] at h
    dsimp only at h
    obtain ⟨rs2, h2, hc, hne⟩ := discLoop_single sU username resp p2 _ cals h
    refine ⟨hne, Or.inr ⟨?_, ⟨rs2, h2, hc⟩⟩⟩
    intro rs1 hrs1
    cases hrs1
  · rw [hr] at h
    dsimp only at h
    obtain ⟨rs2, h2, hc, hne⟩ := discLoop_single sU username resp p2 _ cals h
    refine ⟨hne, Or.inr ⟨?_, ⟨rs2, h2, hc⟩⟩⟩
    intro rs1 hrs1
    cases hrs1
  · rw [hr] at h
    dsimp only at h
    obtain ⟨rs2, h2, hc, hne⟩ := discLoop_single sU username resp p2 _ cals h
    refine ⟨hne, Or.inr ⟨?_, ⟨rs2, h2, hc⟩⟩⟩
    intro rs1 hrs1
    cases hrs1
  · rw [hr] at h
    dsimp only at h
    by_cases hrs : rs = []
    · rw [if_pos hrs] at h
      obtain ⟨rs2, h2, hc, hne⟩ := discLoop_single sU username resp p2 none cals h
      refine ⟨hne, Or.inr ⟨?_, ⟨rs2, h2, hc⟩⟩⟩
      intro rs1 hrs1
      injection hrs1 with hh
      rw [← hh, hrs]
      rfl
    · rw [if_neg hrs] at h
      try dsimp only at h
      simp only [List.nil_append] at h
      by_cases hne : processResponses sU p1 username rs ≠ []
      · rw [if_pos hne] at h
        have hc := Except.ok.inj h
        exact ⟨hc ▸ hne, Or.inl ⟨rs, rfl, hc.symm⟩⟩
      · rw [if_neg hne] at h
        push_neg at hne
        rw [hne] at h
        obtain ⟨rs2, h2, hc, hne2⟩ := discLoop_single sU username resp p2 none cals h
        refine ⟨hne2, Or.inr ⟨?_, ⟨rs2, h2, hc⟩⟩⟩
        intro rs1 hrs1
        injection hrs1 with hh
        rw [← hh]
        exact hne

/-- C7 (claim, confirmed).  A successful discovery result consists of the
usable entries of exactly one base path — the username path when it yields
at least one usable entry, otherwise the root path — and entries of the two
paths are never merged. -/
theorem C7_first_path_only (config : RadicaleConfig) (resp : String → PropfindResult)
    (cals : List CalDAVCalendar)
    (h : loadCalendarsFromRadicale config resp = .ok cals) :
    cals ≠ [] ∧
    ((∃ rs, resp ((⟨goTrimSfx config.serverURL.data "/".data⟩ : String) ++
          ("/" ++ config.username ++ "/")) = .ok rs ∧
        cals = processResponses (⟨goTrimSfx config.serverURL.data "/".data⟩ : String)
          ("/" ++ config.username ++ "/") config.username rs) ∨
     ((∀ rs, resp ((⟨goTrimSfx config.serverURL.data "/".data⟩ : String) ++
          ("/" ++ config.username ++ "/")) = .ok rs →
        processResponses (⟨goTrimSfx config.serverURL.data "/".data⟩ : String)
          ("/" ++ config.username ++ "/") config.username rs = []) ∧
      ∃ rs, resp ((⟨goTrimSfx config.serverURL.data "/".data⟩ : String) ++ "/") = .ok rs ∧
        cals = processResponses (⟨goTrimSfx config.serverURL.data "/".data⟩ : String)
          "/" config.username rs)) := by
  unfold loadCalendarsFromRadicale at h
  dsimp only at h
  exact discLoop_two (⟨goTrimSfx config.serverURL.data "/".data⟩ : String)
    config.username resp ("/" ++ config.username ++ "/") "/" cals h

/-- Witness for C7: discovery against /alice/ answers a 207 with the base
collection (skipped) and /alice/work/ named Work; the result is exactly the
one collection named Work and the theorem applies to it. -/
theorem C7_witness :
    loadCalendarsFromRadicale (RadicaleConfig.mk "http://radicale" "alice" "pw")
      (fun u => if u = "http://radicale/alice/" then
          PropfindResult.ok [DavResponse.mk "/alice/" [DavPropstat.mk "HTTP/1.1 200 OK" ""],
            DavResponse.mk "/alice/work/" [DavPropstat.mk "HTTP/1.1 200 OK" "Work"]]
        else PropfindResult.netErr) =
      .ok [CalDAVCalendar.mk "Work" "http://radicale/alice/work/"] ∧
    (([CalDAVCalendar.mk "Work" "http://radicale/alice/work/"] : List CalDAVCalendar) ≠ [] ∧
     ((∃ rs, (fun u => if u = "http://radicale/alice/" then
          PropfindResult.ok [DavResponse.mk "/alice/" [DavPropstat.mk "HTTP/1.1 200 OK" ""],
            DavResponse.mk "/alice/work/" [DavPropstat.mk "HTTP/1.1 200 OK" "Work"]]
        else PropfindResult.netErr)
          ((⟨goTrimSfx ("http://radicale" : String).data "/".data⟩ : String) ++
            ("/" ++ "alice" ++ "/")) = .ok rs ∧
        ([CalDAVCalendar.mk "Work" "http://radicale/alice/work/"] : List CalDAVCalendar) =
          processResponses (⟨goTrimSfx ("http://radicale" : String).data "/".data⟩ : String)
            ("/" ++ "alice" ++ "/") "alice" rs) ∨
      ((∀ rs, (fun u => if u = "http://radicale/alice/" then
          PropfindResult.ok [DavResponse.mk "/alice/" [DavPropstat.mk "HTTP/1.1 200 OK" ""],
            DavResponse.mk "/alice/work/" [DavPropstat.mk "HTTP/1.1 200 OK" "Work"]]
        else PropfindResult.netErr)
          ((⟨goTrimSfx ("http://radicale" : String).data "/".data⟩ : String) ++
            ("/" ++ "alice" ++ "/")) = .ok rs →
        processResponses (⟨goTrimSfx ("http://radicale" : String).data "/".data⟩ : String)
          ("/" ++ "alice" ++ "/") "alice" rs = []) ∧
       ∃ rs, (fun u => if u = "http://radicale/alice/" then
          PropfindResult.ok [DavResponse.mk "/alice/" [DavPropstat.mk "HTTP/1.1 200 OK" ""],
            DavResponse.mk "/alice/work/" [DavPropstat.mk "HTTP/1.1 200 OK" "Work"]]
        else PropfindResult.netErr)
          ((⟨goTrimSfx ("http://radicale" : String).data "/".data⟩ : String) ++ "/") = .ok rs ∧
        ([CalDAVCalendar.mk "Work" "http://radicale/alice/work/"] : List CalDAVCalendar) =
          processResponses (⟨goTrimSfx ("http://radicale" : String).data "/".data⟩ : String)
            "/" "alice" rs))) :=
  ⟨by rfl,
   C7_first_path_only (RadicaleConfig.mk "http://radicale" "alice" "pw")
     (fun u => if u = "http://radicale/alice/" then
         PropfindResult.ok [DavResponse.mk "/alice/" [DavPropstat.mk "HTTP/1.1 200 OK" ""],
           DavResponse.mk "/alice/work/" [DavPropstat.mk "HTTP/1.1 200 OK" "Work"]]
       else PropfindResult.netErr)
     [CalDAVCalendar.mk "Work" "http://radicale/alice/work/"] (by rfl)⟩

/-- One candidate step with a status other than 200/207: the loop records
the status and the truncated-body error and moves to the next candidate. -/
theorem fetchLoop_other {ffFuel : Nat} {nowT : Int} {calName color : String}
    {server : String → Option HttpResp} {url : String} {rest : List String}
    {st : Int} {body : String} {lastStatus : Int} {lastErr : Option FetchSub}
    (hr : server url = some (HttpResp.mk st body)) (h200 : st ≠ 200) (h207 : st ≠ 207) :
    fetchLoop ffFuel nowT calName color server (url :: rest) lastStatus lastErr =
      fetchLoop ffFuel nowT calName color server rest st
        (some (.httpErr st (⟨body.data.take (min 200 body.length)⟩ : String))) := by
  rw [fetchLoop.eq_def]
  dsimp only
  rw [hr]
  dsimp only
  rw [if_neg h200, if_neg h207]

/-- One candidate step answering 200 with a body that starts with the
calendar marker and decodes: the loop returns its events. -/
theorem fetchLoop_200_ok {ffFuel : Nat} {nowT : Int} {calName color : String}
    {server : String → Option HttpResp} {url : String} {rest : List String}
    {body : String} {evs : List Event} {lastStatus : Int} {lastErr : Option FetchSub}
    (hr : server url = some (HttpResp.mk 200 body))
    (hmk : goHasPfx "BEGIN:VCALENDAR".data (goTrimSpace body.data) = true)
    (hdec : loadICSFromReader ffFuel nowT body calName color = some (.ok evs)) :
    fetchLoop ffFuel nowT calName color server (url :: rest) lastStatus lastErr =
      some (.ok evs) := by
  rw [fetchLoop.eq_def]
  dsimp only
  rw [hr]
  dsimp only
  rw [if_pos (show (200 : Int) = 200 from rfl)]
  rw [if_pos hmk]
  rw [hdec]

/-- C8 (claim, confirmed).  The four candidate addresses are tried in
order: three 404s followed by a 200 whose body opens with the calendar
marker and decodes yield the fourth candidate's events; and when every
candidate answers a status other than 200/207, the error carries the last
status and the 200-character-truncated last body. -/
theorem C8_candidates (ffFuel : Nat) (nowT : Int) (calendarURL calName color : String)
    (server : String → Option HttpResp) :
    (∀ b1 b2 b3 body evs,
      server ((⟨goTrimSfx calendarURL.data "/".data⟩ : String) ++ ".ics") =
        some (HttpResp.mk 404 b1) →
      server (calendarURL ++ ".ics") = some (HttpResp.mk 404 b2) →
      server (⟨goTrimSfx calendarURL.data "/".data⟩ : String) = some (HttpResp.mk 404 b3) →
      server calendarURL = some (HttpResp.mk 200 body) →
      goHasPfx "BEGIN:VCALENDAR".data (goTrimSpace body.data) = true →
      loadICSFromReader ffFuel nowT body calName color = some (.ok evs) →
      loadICSFromRadicale ffFuel nowT calendarURL calName color server = some (.ok evs)) ∧
    (∀ s1 b1 s2 b2 s3 b3 s4 b4,
      server ((⟨goTrimSfx calendarURL.data "/".data⟩ : String) ++ ".ics") =
        some (HttpResp.mk s1 b1) → s1 ≠ 200 → s1 ≠ 207 →
      server (calendarURL ++ ".ics") = some (HttpResp.mk s2 b2) → s2 ≠ 200 → s2 ≠ 207 →
      server (⟨goTrimSfx calendarURL.data "/".data⟩ : String) =
        some (HttpResp.mk s3 b3) → s3 ≠ 200 → s3 ≠ 207 →
      server calendarURL = some (HttpResp.mk s4 b4) → s4 ≠ 200 → s4 ≠ 207 →
      loadICSFromRadicale ffFuel nowT calendarURL calName color server =
        some (.error (.allFailed s4 (some (.httpErr s4
          (⟨b4.data.take (min 200 b4.length)⟩ : String)))))) := by
  constructor
  · intro b1 b2 b3 body evs h1 h2 h3 h4 hmk hdec
    unfold loadICSFromRadicale urlsToTry
    dsimp only
    rw [fetchLoop_other h1 (by norm_num) (by norm_num)]
    rw [fetchLoop_other h2 (by norm_num) (by norm_num)]
    rw [fetchLoop_other h3 (by norm_num) (by norm_num)]
    exact fetchLoop_200_ok h4 hmk hdec
  · intro s1 b1 s2 b2 s3 b3 s4 b4 h1 e1 g1 h2 e2 g2 h3 e3 g3 h4 e4 g4
    unfold loadICSFromRadicale urlsToTry
    dsimp only
    rw [fetchLoop_other h1 e1 g1]
    rw [fetchLoop_other h2 e2 g2]
    rw [fetchLoop_other h3 e3 g3]
    rw [fetchLoop_other h4 e4 g4]
    simp only [fetchLoop]

/-- Witness for C8: against http://r/cal/ the first three candidates answer
404 and the collection address answers 200 with an empty calendar container
(success with its decoded events); against an all-500 server the error
carries the last status 500 and the truncated body. -/
theorem C8_witness :
    loadICSFromRadicale 10 1700000000 "http://r/cal/" "work" "205"
      (fun u => if u = "http://r/cal/" then
          some (HttpResp.mk 200 "BEGIN:VCALENDAR\nEND:VCALENDAR\n")
        else some (HttpResp.mk 404 "nf")) = some (.ok []) ∧
    loadICSFromRadicale 10 1700000000 "http://r/cal/" "work" "205"
      (fun _ => some (HttpResp.mk 500 "boom")) =
      some (.error (.allFailed 500 (some (.httpErr 500
        (⟨("boom" : String).data.take (min 200 ("boom" : String).length)⟩ : String))))) :=
  ⟨(C8_candidates 10 1700000000 "http://r/cal/" "work" "205"
      (fun u => if u = "http://r/cal/" then
          some (HttpResp.mk 200 "BEGIN:VCALENDAR\nEND:VCALENDAR\n")
        else some (HttpResp.mk 404 "nf"))).1 "nf" "nf" "nf"
      "BEGIN:VCALENDAR\nEND:VCALENDAR\n" [] rfl rfl rfl rfl rfl rfl,
   (C8_candidates 10 1700000000 "http://r/cal/" "work" "205"
      (fun _ => some (HttpResp.mk 500 "boom"))).2 500 "boom" 500 "boom" 500 "boom" 500 "boom"
      rfl (by norm_num) (by norm_num) rfl (by norm_num) (by norm_num)
      rfl (by norm_num) (by norm_num) rfl (by norm_num) (by norm_num)⟩

/-- C9 (claim, confirmed).  The aggregate load errors exactly when the
events gathered across every source are empty; a successful result is
exactly the gathered per-source data, and the failure of an individual
configured feed only drops that feed's contribution — the remaining
sources' events are untouched. -/
theorem C9_error_iff_empty (passedRadicale : Option RadicaleConfig)
    (configR : Option AppConfig) (env : LoadEnv) :
    (loadAllCalendars passedRadicale configR env = .error () ↔
      (gatherAll passedRadicale configR env).1 = []) ∧
    (∀ r, loadAllCalendars passedRadicale configR env = .ok r →
      r = gatherAll passedRadicale configR env ∧ r.1 ≠ []) ∧
    (∀ (cal : CalendarConfigEntry) (rest : List CalendarConfigEntry) (idx : Nat),
      ¬ cal.ctype = "radicale" → cal.url ≠ "" →
      env.loadFromURL cal.url cal.name (colorAt idx) = .error () →
      (feedsLoop env (cal :: rest) idx).1 = (feedsLoop env rest idx).1) := by
  refine ⟨?_, ?_, ?_⟩
  · unfold loadAllCalendars
    dsimp only
    by_cases h : (gatherAll passedRadicale configR env).1 = []
    · rw [if_pos h]
      exact iff_of_true rfl h
    · rw [if_neg h]
      exact iff_of_false (by simp) h
  · intro r hr
    unfold loadAllCalendars at hr
    dsimp only at hr
    by_cases h : (gatherAll passedRadicale configR env).1 = []
    · rw [if_pos h] at hr
      exact absurd hr (by simp)
    · rw [if_neg h] at hr
      rcases Except.ok.inj hr with rfl
      exact ⟨rfl, h⟩
  · intro cal rest idx hty hurl herr
    rw [feedsLoop.eq_def]
    try dsimp only
    rw [if_neg hty]
    try dsimp only
    rw [if_pos hurl]
    rw [herr]

/-- Witness for C9: a configuration with one failing remote feed and one
succeeding local file; the load succeeds with exactly the local file's
event and the theorem applies. -/
theorem C9_witness :
    loadAllCalendars none
      (some (AppConfig.mk none [CalendarConfigEntry.mk "feed" "http://feed" "" ""] ["local"]))
      (LoadEnv.mk (fun _ => .error .noCalendarsFound) (fun _ _ _ => .error ())
        (fun _ _ _ => .error ())
        (fun _ _ _ => .ok [Event.mk "Local" 1700000000 1700003600 "" "local" "205" "u1"])
        (fun _ => true) none) =
      .ok ([Event.mk "Local" 1700000000 1700003600 "" "local" "205" "u1"],
        [("feed", "205"), ("local", "205")], []) ∧
    (([Event.mk "Local" 1700000000 1700003600 "" "local" "205" "u1"],
        ([("feed", "205"), ("local", "205")] : List (String × String)),
        ([] : List (String × String))) =
      gatherAll none
        (some (AppConfig.mk none [CalendarConfigEntry.mk "feed" "http://feed" "" ""] ["local"]))
        (LoadEnv.mk (fun _ => .error .noCalendarsFound) (fun _ _ _ => .error ())
          (fun _ _ _ => .error ())
          (fun _ _ _ => .ok [Event.mk "Local" 1700000000 1700003600 "" "local" "205" "u1"])
          (fun _ => true) none) ∧
     ([Event.mk "Local" 1700000000 1700003600 "" "local" "205" "u1"],
        ([("feed", "205"), ("local", "205")] : List (String × String)),
        ([] : List (String × String))).1 ≠ []) :=
  ⟨by decide,
   (C9_error_iff_empty none
      (some (AppConfig.mk none [CalendarConfigEntry.mk "feed" "http://feed" "" ""] ["local"]))
      (LoadEnv.mk (fun _ => .error .noCalendarsFound) (fun _ _ _ => .error ())
        (fun _ _ _ => .error ())
        (fun _ _ _ => .ok [Event.mk "Local" 1700000000 1700003600 "" "local" "205" "u1"])
        (fun _ => true) none)).2.1
     ([Event.mk "Local" 1700000000 1700003600 "" "local" "205" "u1"],
        [("feed", "205"), ("local", "205")], []) (by decide)⟩

/-- goReplaceAll with a one-character pattern is a per-character flat map
(the budget suffices). -/
theorem goReplaceAllF_single (p : Char) (rep : List Char) :
    ∀ (fuel : Nat) (l : List Char), l.length ≤ fuel →
      goReplaceAllF [p] rep fuel l = l.flatMap (fun c => if c = p then rep else [c]) := by
  intro fuel
  induction fuel with
  | zero =>
    intro l hl
    cases l with
    | nil => rfl
    | cons c rest => simp at hl
  | succ n ih =>
    intro l hl
    cases l with
    | nil => rfl
    | cons c rest =>
      have hstep : goReplaceAllF [p] rep (n + 1) (c :: rest) =
          if [p] ≠ [] ∧ goHasPfx [p] (c :: rest) then rep ++ goReplaceAllF [p] rep n rest
          else c :: goReplaceAllF [p] rep n rest := rfl
      rw [hstep]
      have hrest : rest.length ≤ n := by
        simp at hl
        omega
      by_cases hc : c = p
      · rw [if_pos ⟨by simp, by simp [goHasPfx, hc]⟩, ih rest hrest, List.flatMap_cons, if_pos hc]
      · have hpfx : goHasPfx [p] (c :: rest) = false := by
          simp [goHasPfx]
          exact fun h => hc h.symm
        rw [if_neg (by simp [hpfx]), ih rest hrest, List.flatMap_cons, if_neg hc]
        rfl

/-- goReplaceAll with a one-character pattern, at full budget. -/
theorem goReplaceAll_single (p : Char) (rep l : List Char) :
    goReplaceAll [p] rep l = l.flatMap (fun c => if c = p then rep else [c]) :=
  goReplaceAllF_single p rep l.length l (le_refl _)

/-- The four single-character replace passes compose into the per-character
escape map. -/
theorem flatMap_esc_chain : ∀ l : List Char,
    ((((l.flatMap (fun c => if c = '\\' then ['\\', '\\'] else [c])).flatMap
      (fun c => if c = ',' then ['\\', ','] else [c])).flatMap
      (fun c => if c = ';' then ['\\', ';'] else [c])).flatMap
      (fun c => if c = '\n' then ['\\', 'n'] else [c])) = l.flatMap escChar
  | [] => rfl
  | c :: rest => by
    simp only [List.flatMap_cons, List.flatMap_append]
    rw [flatMap_esc_chain rest]
    congr 1
    by_cases h1 : c = '\\'
    · subst h1; rfl
    · by_cases h2 : c = ','
      · subst h2; rfl
      · by_cases h3 : c = ';'
        · subst h3; rfl
        · by_cases h4 : c = '\n'
          · subst h4; rfl
          · simp [escChar, h1, h2, h3, h4]

/-- escapeICSValue is the per-character escape map. -/
theorem escape_eq (s : String) : (escapeICSValue s).data = s.data.flatMap escChar := by
  unfold escapeICSValue
  dsimp only
  rw [goReplaceAll_single, goReplaceAll_single, goReplaceAll_single, goReplaceAll_single]
  exact flatMap_esc_chain s.data

/-- One step of the text unescape. -/
theorem une_step (c : Char) (l : List Char) :
    unescapeICSText (c :: l) =
      if c = '\\' then
        match l with
        | [] => [c]
        | c2 :: rest2 =>
          if c2 = 'n' ∨ c2 = 'N' then '\n' :: unescapeICSText rest2
          else c2 :: unescapeICSText rest2
      else c :: unescapeICSText l := by
  rw [unescapeICSText.eq_def]

/-- The library unescape inverts the escape map on every string. -/
theorem unescape_escChar : ∀ l : List Char, unescapeICSText (l.flatMap escChar) = l
  | [] => rfl
  | c :: rest => by
    rw [List.flatMap_cons]
    by_cases h1 : c = '\\'
    · subst h1
      rw [show escChar '\\' = ['\\', '\\'] from rfl,
          show (['\\', '\\'] ++ rest.flatMap escChar) = '\\' :: '\\' :: rest.flatMap escChar from rfl,
          une_step, if_pos rfl]
      dsimp only
      rw [if_neg (by decide), unescape_escChar rest]
    · by_cases h2 : c = ','
      · subst h2
        rw [show escChar ',' = ['\\', ','] from rfl,
            show (['\\', ','] ++ rest.flatMap escChar) = '\\' :: ',' :: rest.flatMap escChar from rfl,
            une_step, if_pos rfl]
        dsimp only
        rw [if_neg (by decide), unescape_escChar rest]
      · by_cases h3 : c = ';'
        · subst h3
          rw [show escChar ';' = ['\\', ';'] from rfl,
              show (['\\', ';'] ++ rest.flatMap escChar) = '\\' :: ';' :: rest.flatMap escChar from rfl,
              une_step, if_pos rfl]
          dsimp only
          rw [if_neg (by decide), unescape_escChar rest]
        · by_cases h4 : c = '\n'
          · subst h4
            rw [show escChar '\n' = ['\\', 'n'] from rfl,
                show (['\\', 'n'] ++ rest.flatMap escChar) = '\\' :: 'n' :: rest.flatMap escChar from rfl,
                une_step, if_pos rfl]
            dsimp only
            rw [if_pos (Or.inl rfl), unescape_escChar rest]
          · rw [show escChar c = [c] by simp [escChar, h1, h2, h3, h4],
                show ([c] ++ rest.flatMap escChar) = c :: rest.flatMap escChar from rfl,
                une_step, if_neg h1, unescape_escChar rest]

/-- The escape map never emits a newline. -/
theorem escChar_no_newline (c x : Char) (hx : x ∈ escChar c) : ¬ x = '\n' := by
  unfold escChar at hx
  split_ifs at hx with h1 h2 h3 h4
  · simp at hx; subst hx; decide
  · simp at hx; rcases hx with rfl | rfl <;> decide
  · simp at hx; rcases hx with rfl | rfl <;> decide
  · simp at hx; rcases hx with rfl | rfl <;> decide
  · simp at hx; subst hx; exact h4

/-- No escaped value contains a newline. -/
theorem no_nl_escape (s : String) : ∀ x ∈ (escapeICSValue s).data, ¬ x = '\n' := by
  rw [escape_eq]
  intro x hx
  rw [List.mem_flatMap] at hx
  obtain ⟨c, _, hc⟩ := hx
  exact escChar_no_newline c x hc

/-- Facts about a decimal digit character. -/
theorem digitCharFacts (d : Nat) (h : d ≤ 9) :
    (Char.ofNat (48 + d)).isDigit = true ∧ (Char.ofNat (48 + d)).toNat = 48 + d ∧
    ¬ (Char.ofNat (48 + d)) = '\n' := by
  interval_cases d <;> exact ⟨by decide, by decide, by decide⟩

/-- pad2 of an in-range value: two digit characters reading back to the
value, free of newlines. -/
theorem pad2_spec (n : Int) (h0 : 0 ≤ n) (h99 : n ≤ 99) :
    (pad2 n).length = 2 ∧ (pad2 n).all Char.isDigit = true ∧ digitsVal (pad2 n) = n ∧
    ∀ x ∈ pad2 n, ¬ x = '\n' := by
  unfold pad2
  have b1 : (n / 10).toNat ≤ 9 := by omega
  have b2 : (n % 10).toNat ≤ 9 := by omega
  obtain ⟨d1i, d1n, d1nl⟩ := digitCharFacts _ b1
  obtain ⟨d2i, d2n, d2nl⟩ := digitCharFacts _ b2
  refine ⟨rfl, ?_, ?_, ?_⟩
  · simp [List.all_cons, d1i, d2i]
  · simp [digitsVal, List.foldl_cons, List.foldl_nil, d1n, d2n]
    omega
  · intro x hx
    simp at hx
    rcases hx with rfl | rfl
    · exact d1nl
    · exact d2nl

/-- pad4 of an in-range year: four digit characters reading back to the
value, free of newlines. -/
theorem pad4_spec (n : Int) (h0 : 0 ≤ n) (h9999 : n ≤ 9999) :
    (pad4 n).length = 4 ∧ (pad4 n).all Char.isDigit = true ∧ digitsVal (pad4 n) = n ∧
    ∀ x ∈ pad4 n, ¬ x = '\n' := by
  unfold pad4
  rw [if_pos ⟨h0, h9999⟩]
  have b1 : (n / 1000).toNat ≤ 9 := by omega
  have b2 : (n / 100 % 10).toNat ≤ 9 := by omega
  have b3 : (n / 10 % 10).toNat ≤ 9 := by omega
  have b4 : (n % 10).toNat ≤ 9 := by omega
  obtain ⟨d1i, d1n, d1nl⟩ := digitCharFacts _ b1
  obtain ⟨d2i, d2n, d2nl⟩ := digitCharFacts _ b2
  obtain ⟨d3i, d3n, d3nl⟩ := digitCharFacts _ b3
  obtain ⟨d4i, d4n, d4nl⟩ := digitCharFacts _ b4
  refine ⟨rfl, ?_, ?_, ?_⟩
  · simp [List.all_cons, d1i, d2i, d3i, d4i]
  · simp [digitsVal, List.foldl_cons, List.foldl_nil, d1n, d2n, d3n, d4n]
    omega
  · intro x hx
    simp at hx
    rcases hx with rfl | rfl | rfl | rfl
    · exact d1nl
    · exact d2nl
    · exact d3nl
    · exact d4nl

/-- Every month length fits in a month of 31 days. -/
theorem daysInMonth_le_31 (y m : Int) : daysInMonth y m ≤ 31 := by
  unfold daysInMonth
  split_ifs <;> omega

/-- parseYMD reads back the padded components of a valid civil date. -/
theorem parseYMD_pads (y m d : Int) (hy0 : 0 ≤ y) (hy9 : y ≤ 9999)
    (hm1 : 1 ≤ m) (hm12 : m ≤ 12) (hd1 : 1 ≤ d) (hdm : d ≤ daysInMonth y m) :
    parseYMD (pad4 y ++ (pad2 m ++ pad2 d)) = some (y, m, d) := by
  have hd31 : d ≤ 31 := le_trans hdm (daysInMonth_le_31 y m)
  obtain ⟨l4, a4, v4, _⟩ := pad4_spec y hy0 hy9
  obtain ⟨lm, am, vm, _⟩ := pad2_spec m (by omega) (by omega)
  obtain ⟨ld, ad, vd, _⟩ := pad2_spec d (by omega) (by omega)
  unfold parseYMD
  have hlen : (pad4 y ++ (pad2 m ++ pad2 d)).length = 8 := by
    simp [List.length_append, l4, lm, ld]
  have hall : (pad4 y ++ (pad2 m ++ pad2 d)).all Char.isDigit = true := by
    simp [List.all_append, a4, am, ad]
  rw [if_pos ⟨hlen, hall⟩]
  dsimp only
  have ht4 : (pad4 y ++ (pad2 m ++ pad2 d)).take 4 = pad4 y := List.take_left' l4
  have hd4 : (pad4 y ++ (pad2 m ++ pad2 d)).drop 4 = pad2 m ++ pad2 d := List.drop_left' l4
  have ht2 : (pad2 m ++ pad2 d).take 2 = pad2 m := List.take_left' lm
  have hd6 : (pad4 y ++ (pad2 m ++ pad2 d)).drop 6 = pad2 d := by
    rw [show (6 : Nat) = 4 + 2 from rfl, ← List.drop_drop, hd4]
    exact List.drop_left' lm
  rw [ht4, hd4, ht2, hd6, v4, vm, vd]
  rw [if_pos ⟨hm1, hm12, hd1, hdm⟩]

/-- parseHMS reads back the padded components of a time of day. -/
theorem parseHMS_pads (hh mi ss : Int) (hh0 : 0 ≤ hh) (hh23 : hh ≤ 23)
    (hmi0 : 0 ≤ mi) (hmi59 : mi ≤ 59) (hss0 : 0 ≤ ss) (hss59 : ss ≤ 59) :
    parseHMS (pad2 hh ++ (pad2 mi ++ pad2 ss)) = some (hh, mi, ss) := by
  obtain ⟨lh, ah, vh, _⟩ := pad2_spec hh (by omega) (by omega)
  obtain ⟨lm, am, vm, _⟩ := pad2_spec mi (by omega) (by omega)
  obtain ⟨ls, as2, vs, _⟩ := pad2_spec ss (by omega) (by omega)
  unfold parseHMS
  have hlen : (pad2 hh ++ (pad2 mi ++ pad2 ss)).length = 6 := by
    simp [List.length_append, lh, lm, ls]
  have hall : (pad2 hh ++ (pad2 mi ++ pad2 ss)).all Char.isDigit = true := by
    simp [List.all_append, ah, am, as2]
  rw [if_pos ⟨hlen, hall⟩]
  dsimp only
  have ht2 : (pad2 hh ++ (pad2 mi ++ pad2 ss)).take 2 = pad2 hh := List.take_left' lh
  have hd2 : (pad2 hh ++ (pad2 mi ++ pad2 ss)).drop 2 = pad2 mi ++ pad2 ss := List.drop_left' lh
  have ht2b : (pad2 mi ++ pad2 ss).take 2 = pad2 mi := List.take_left' lm
  have hd4 : (pad2 hh ++ (pad2 mi ++ pad2 ss)).drop 4 = pad2 ss := by
    rw [show (4 : Nat) = 2 + 2 from rfl, ← List.drop_drop, hd2]
    exact List.drop_left' lm
  rw [ht2, hd2, ht2b, hd4, vh, vm, vs]
  rw [if_pos ⟨hh23, hmi59, hss59⟩]

/-- parseTSZ reads back a full padded wire timestamp. -/
theorem parseTSZ_pads (y m d hh mi ss : Int) (hy0 : 0 ≤ y) (hy9 : y ≤ 9999)
    (hm1 : 1 ≤ m) (hm12 : m ≤ 12) (hd1 : 1 ≤ d) (hdm : d ≤ daysInMonth y m)
    (hh0 : 0 ≤ hh) (hh23 : hh ≤ 23) (hmi0 : 0 ≤ mi) (hmi59 : mi ≤ 59)
    (hss0 : 0 ≤ ss) (hss59 : ss ≤ 59) :
    parseTSZ ((pad4 y ++ (pad2 m ++ pad2 d)) ++
      ('T' :: ((pad2 hh ++ (pad2 mi ++ pad2 ss)) ++ ['Z']))) = some (mkInt y m d hh mi ss) := by
  have hd31 : d ≤ 31 := le_trans hdm (daysInMonth_le_31 y m)
  have hA : (pad4 y ++ (pad2 m ++ pad2 d)).length = 8 := by
    simp [List.length_append, (pad4_spec y hy0 hy9).1, (pad2_spec m (by omega) (by omega)).1,
      (pad2_spec d (by omega) (by omega)).1]
  have hB : (pad2 hh ++ (pad2 mi ++ pad2 ss)).length = 6 := by
    simp [List.length_append, (pad2_spec hh (by omega) (by omega)).1,
      (pad2_spec mi (by omega) (by omega)).1, (pad2_spec ss (by omega) (by omega)).1]
  unfold parseTSZ
  rw [List.take_left' hA, List.drop_left' hA]
  rw [parseYMD_pads y m d hy0 hy9 hm1 hm12 hd1 hdm]
  dsimp only
  rw [if_pos (show ('T' : Char) = 'T' from rfl)]
  rw [List.take_left' hB, List.drop_left' hB]
  rw [parseHMS_pads hh mi ss hh0 hh23 hmi0 hmi59 hss0 hss59]
  dsimp only
  rw [if_pos (show (['Z'] : List Char) = ['Z'] from rfl)]

/-- formatTS regrouped around the literal T and Z markers. -/
theorem formatTS_shape (t : Int) :
    formatTS t = (pad4 (dateOf t).year ++ (pad2 (dateOf t).month ++ pad2 (dateOf t).day)) ++
      ('T' :: ((pad2 (secOfDay t / 3600) ++ (pad2 (secOfDay t % 3600 / 60) ++
        pad2 (secOfDay t % 60))) ++ ['Z'])) := by
  unfold formatTS
  dsimp only
  simp [List.append_assoc]

/-- A formatted timestamp of an in-range year contains no newline. -/
theorem formatTS_no_nl (t : Int) (h0 : 0 ≤ (dateOf t).year) (h9 : (dateOf t).year ≤ 9999) :
    ∀ c ∈ formatTS t, ¬ c = '\n' := by
  have hv : 1 ≤ (dateOf t).month ∧ (dateOf t).month ≤ 12 ∧ 1 ≤ (dateOf t).day ∧
      (dateOf t).day ≤ daysInMonth (dateOf t).year (dateOf t).month := civilFromDays_valid (dayOf t)
  have hsod := dayOf_secOfDay t
  rw [formatTS_shape]
  intro c hc
  have hd31 : (dateOf t).day ≤ 31 := le_trans hv.2.2.2 (daysInMonth_le_31 _ _)
  simp only [List.mem_append, List.mem_cons, List.mem_singleton] at hc
  rcases hc with (h | h | h) | h | (h | h | h) | h
  · exact (pad4_spec _ h0 h9).2.2.2 c h
  · exact (pad2_spec _ (by omega) (by omega)).2.2.2 c h
  · exact (pad2_spec _ (by omega) (by omega)).2.2.2 c h
  · subst h; decide
  · exact (pad2_spec _ (by omega) (by omega)).2.2.2 c h
  · exact (pad2_spec _ (by omega) (by omega)).2.2.2 c h
  · exact (pad2_spec _ (by omega) (by omega)).2.2.2 c h
  · rcases h with h | h
    · subst h; decide
    · simp at h

set_option maxHeartbeats 1000000 in
/-- Wire timestamp round trip: parsing a formatted in-range instant gives
the instant back. -/
theorem parseTSZ_formatTS (t : Int)
    (h0 : 0 ≤ (dateOf t).year) (h9 : (dateOf t).year ≤ 9999) :
    parseTSZ (formatTS t) = some t := by
  have hv : 1 ≤ (dateOf t).month ∧ (dateOf t).month ≤ 12 ∧ 1 ≤ (dateOf t).day ∧
      (dateOf t).day ≤ daysInMonth (dateOf t).year (dateOf t).month := civilFromDays_valid (dayOf t)
  have hrt : daysFromCivil (dateOf t).year (dateOf t).month (dateOf t).day = dayOf t :=
    daysFromCivil_civilFromDays (dayOf t)
  have hsod := dayOf_secOfDay t
  rw [formatTS_shape]
  rw [parseTSZ_pads (dateOf t).year (dateOf t).month (dateOf t).day
    (secOfDay t / 3600) (secOfDay t % 3600 / 60) (secOfDay t % 60)
    h0 h9 hv.1 hv.2.1 hv.2.2.1 hv.2.2.2
    (by omega) (by omega) (by omega) (by omega) (by omega) (by omega)]
  congr 1
  unfold mkInt
  rw [hrt]
  omega

/-- Splitting at a leading separator. -/
theorem goSplitChar_sep (sep : Char) (l : List Char) :
    goSplitChar sep (sep :: l) = [] :: goSplitChar sep l := by
  have hstep : goSplitChar sep (sep :: l) =
      if sep = sep then [] :: goSplitChar sep l
      else match goSplitChar sep l with
        | [] => [[sep]]
        | f :: fs => (sep :: f) :: fs := rfl
  rw [hstep, if_pos rfl]

/-- Splitting peels off a separator-free segment before a separator. -/
theorem goSplitChar_seg (sep : Char) : ∀ (l1 l2 : List Char), (∀ c ∈ l1, ¬ c = sep) →
    goSplitChar sep (l1 ++ sep :: l2) = l1 :: goSplitChar sep l2
  | [], l2, _ => goSplitChar_sep sep l2
  | c :: l1', l2, h => by
    have hc : ¬ c = sep := h c (List.mem_cons_self c l1')
    have hrec := goSplitChar_seg sep l1' l2 (fun x hx => h x (List.mem_cons_of_mem c hx))
    have hstep : goSplitChar sep (c :: (l1' ++ sep :: l2)) =
        if c = sep then [] :: goSplitChar sep (l1' ++ sep :: l2)
        else match goSplitChar sep (l1' ++ sep :: l2) with
          | [] => [[c]]
          | f :: fs => (c :: f) :: fs := rfl
    rw [show ((c :: l1') ++ sep :: l2) = c :: (l1' ++ sep :: l2) from rfl, hstep, if_neg hc, hrec]

/-- goSplitChar_seg with the lists implicit (driven by the side condition). -/
theorem goSplitChar_seg2 (sep : Char) {l1 l2 : List Char} (h : ∀ c ∈ l1, ¬ c = sep) :
    goSplitChar sep (l1 ++ sep :: l2) = l1 :: goSplitChar sep l2 :=
  goSplitChar_seg sep l1 l2 h

/-- The encoded single-event payload splits into its eleven lines plus the
trailing empty segment. -/
theorem eventICS_lines (ev : Event)
    (huid : ∀ c ∈ ev.UID.data, ¬ c = '\n')
    (hs1 : 0 ≤ (dateOf ev.Start).year) (hs2 : (dateOf ev.Start).year ≤ 9999)
    (he1 : 0 ≤ (dateOf ev.End).year) (he2 : (dateOf ev.End).year ≤ 9999) :
    goSplitChar '\n' (eventICSContent ev).data =
      ["BEGIN:VCALENDAR".data, "VERSION:2.0".data, "PRODID:-//MyTuiCalendar//EN".data,
       "BEGIN:VEVENT".data, "UID:".data ++ ev.UID.data, "DTSTART:".data ++ formatTS ev.Start,
       "DTEND:".data ++ formatTS ev.End, "SUMMARY:".data ++ (escapeICSValue ev.Summary).data,
       "DESCRIPTION:".data ++ (escapeICSValue ev.Description).data, "END:VEVENT".data,
       "END:VCALENDAR".data, []] := by
  have hcontent : (eventICSContent ev).data =
      "BEGIN:VCALENDAR".data ++ '\n' :: ("VERSION:2.0".data ++ '\n' ::
        ("PRODID:-//MyTuiCalendar//EN".data ++ '\n' :: ("BEGIN:VEVENT".data ++ '\n' ::
        (("UID:".data ++ ev.UID.data) ++ '\n' :: (("DTSTART:".data ++ formatTS ev.Start) ++ '\n' ::
        (("DTEND:".data ++ formatTS ev.End) ++ '\n' ::
        (("SUMMARY:".data ++ (escapeICSValue ev.Summary).data) ++ '\n' ::
        (("DESCRIPTION:".data ++ (escapeICSValue ev.Description).data) ++ '\n' ::
        ("END:VEVENT".data ++ '\n' :: ("END:VCALENDAR".data ++ '\n' ::
          ([] : List Char))))))))))) := by
    unfold eventICSContent
    simp [List.append_assoc]
  have hnl1 : ∀ c ∈ "BEGIN:VCALENDAR".data, ¬ c = '\n' := by decide
  have hnl2 : ∀ c ∈ "VERSION:2.0".data, ¬ c = '\n' := by decide
  have hnl3 : ∀ c ∈ "PRODID:-//MyTuiCalendar//EN".data, ¬ c = '\n' := by decide
  have hnl4 : ∀ c ∈ "BEGIN:VEVENT".data, ¬ c = '\n' := by decide
  have hnlU : ∀ c ∈ "UID:".data ++ ev.UID.data, ¬ c = '\n' := by
    intro c hc
    rcases List.mem_append.mp hc with h | h
    · exact (by decide : ∀ x ∈ "UID:".data, ¬ x = '\n') c h
    · exact huid c h
  have hnlS : ∀ c ∈ "DTSTART:".data ++ formatTS ev.Start, ¬ c = '\n' := by
    intro c hc
    rcases List.mem_append.mp hc with h | h
    · exact (by decide : ∀ x ∈ "DTSTART:".data, ¬ x = '\n') c h
    · exact formatTS_no_nl ev.Start hs1 hs2 c h
  have hnlE : ∀ c ∈ "DTEND:".data ++ formatTS ev.End, ¬ c = '\n' := by
    intro c hc
    rcases List.mem_append.mp hc with h | h
    · exact (by decide : ∀ x ∈ "DTEND:".data, ¬ x = '\n') c h
    · exact formatTS_no_nl ev.End he1 he2 c h
  have hnlSum : ∀ c ∈ "SUMMARY:".data ++ (escapeICSValue ev.Summary).data, ¬ c = '\n' := by
    intro c hc
    rcases List.mem_append.mp hc with h | h
    · exact (by decide : ∀ x ∈ "SUMMARY:".data, ¬ x = '\n') c h
    · exact no_nl_escape ev.Summary c h
  have hnlD : ∀ c ∈ "DESCRIPTION:".data ++ (escapeICSValue ev.Description).data, ¬ c = '\n' := by
    intro c hc
    rcases List.mem_append.mp hc with h | h
    · exact (by decide : ∀ x ∈ "DESCRIPTION:".data, ¬ x = '\n') c h
    · exact no_nl_escape ev.Description c h
  have hnl10 : ∀ c ∈ "END:VEVENT".data, ¬ c = '\n' := by decide
  have hnl11 : ∀ c ∈ "END:VCALENDAR".data, ¬ c = '\n' := by decide
  rw [hcontent, goSplitChar_seg2 '\n' hnl1, goSplitChar_seg2 '\n' hnl2,
      goSplitChar_seg2 '\n' hnl3, goSplitChar_seg2 '\n' hnl4, goSplitChar_seg2 '\n' hnlU,
      goSplitChar_seg2 '\n' hnlS, goSplitChar_seg2 '\n' hnlE, goSplitChar_seg2 '\n' hnlSum,
      goSplitChar_seg2 '\n' hnlD, goSplitChar_seg2 '\n' hnl10, goSplitChar_seg2 '\n' hnl11]
  rfl

/-- Decoding the encoded single-event payload: one event with the original
start, end, summary (modulo the empty-summary placeholder) and description;
the UID passes through the text unescape of the reader. -/
theorem decode_eventICSContent (ffFuel : Nat) (nowT : Int) (calName color : String) (ev : Event)
    (huid : ∀ c ∈ ev.UID.data, ¬ c = '\n')
    (hs1 : 0 ≤ (dateOf ev.Start).year) (hs2 : (dateOf ev.Start).year ≤ 9999)
    (he1 : 0 ≤ (dateOf ev.End).year) (he2 : (dateOf ev.End).year ≤ 9999) :
    loadICSFromReader ffFuel nowT (eventICSContent ev) calName color =
      some (.ok [Event.mk (if ev.Summary = "" then "(No title)" else ev.Summary)
        ev.Start ev.End ev.Description calName color
        (⟨unescapeICSText ev.UID.data⟩ : String)]) := by
  obtain ⟨rawEv, hraw⟩ : ∃ r : RawVEvent, r =
      [("UID".data, ev.UID.data), ("DTSTART".data, formatTS ev.Start),
       ("DTEND".data, formatTS ev.End), ("SUMMARY".data, (escapeICSValue ev.Summary).data),
       ("DESCRIPTION".data, (escapeICSValue ev.Description).data)] := ⟨_, rfl⟩
  have hparse : parseICS (eventICSContent ev) = some [rawEv] := by
    rw [hraw]
    unfold parseICS
    rw [eventICS_lines ev huid hs1 hs2 he1 he2]
    rfl
  have h1 : getTimeProp rawEv "DTSTART".data = some ev.Start := by
    rw [hraw]
    show parseTSZ (formatTS ev.Start) = some ev.Start
    exact parseTSZ_formatTS ev.Start hs1 hs2
  have h2 : getTimeProp rawEv "DTEND".data = some ev.End := by
    rw [hraw]
    show parseTSZ (formatTS ev.End) = some ev.End
    exact parseTSZ_formatTS ev.End he1 he2
  have h3 : getPropVal rawEv "SUMMARY".data = some ev.Summary.data := by
    rw [hraw]
    show some (unescapeICSText (escapeICSValue ev.Summary).data) = some ev.Summary.data
    rw [escape_eq, unescape_escChar]
  have h4 : getPropVal rawEv "DESCRIPTION".data = some ev.Description.data := by
    rw [hraw]
    show some (unescapeICSText (escapeICSValue ev.Description).data) = some ev.Description.data
    rw [escape_eq, unescape_escChar]
  have h5 : getPropVal rawEv "UID".data = some (unescapeICSText ev.UID.data) := by
    rw [hraw]
    rfl
  have h6 : findRRule rawEv = [] := by
    rw [hraw]
    rfl
  have hdec : decodeVEvent ffFuel nowT (addDate nowT 1 0 0) calName color rawEv =
      some [Event.mk (if ev.Summary = "" then "(No title)" else ev.Summary)
        ev.Start ev.End ev.Description calName color
        (⟨unescapeICSText ev.UID.data⟩ : String)] := by
    unfold decodeVEvent
    rw [h1]
    dsimp only
    rw [h2, h3, h4, h5, h6]
    dsimp only
    rw [if_neg (show ¬ (([] : List Char) ≠ []) by simp)]
  have hmapM : ([rawEv] : List RawVEvent).mapM
      (decodeVEvent ffFuel nowT (addDate nowT 1 0 0) calName color) =
      some [[Event.mk (if ev.Summary = "" then "(No title)" else ev.Summary)
        ev.Start ev.End ev.Description calName color
        (⟨unescapeICSText ev.UID.data⟩ : String)]] := by
    rw [show ([rawEv] : List RawVEvent).mapM
        (decodeVEvent ffFuel nowT (addDate nowT 1 0 0) calName color) =
        (decodeVEvent ffFuel nowT (addDate nowT 1 0 0) calName color rawEv).bind
          (fun a => some [a]) from rfl]
    rw [hdec]
    rfl
  unfold loadICSFromReader
  dsimp only
  rw [hparse]
  dsimp only
  rw [hmapM]
  rfl

/-- C6 (claim, corrected).  Encoding an event with createEventOnRadicale's
encoder and decoding the payload with loadICSFromReader reproduces summary,
start, end and description exactly — provided the summary is non-empty (an
empty one decodes as the (No title) placeholder, see the counterexample),
both instants carry four-digit years (the wire shape is fixed-width), and
the raw-embedded UID contains no newline. -/
theorem C6_roundtrip (ffFuel : Nat) (nowT : Int) (calName color : String) (ev : Event)
    (hsum : ev.Summary ≠ "")
    (hs1 : 0 ≤ (dateOf ev.Start).year) (hs2 : (dateOf ev.Start).year ≤ 9999)
    (he1 : 0 ≤ (dateOf ev.End).year) (he2 : (dateOf ev.End).year ≤ 9999)
    (huid : ∀ c ∈ ev.UID.data, ¬ c = '\n') :
    ∃ ev' : Event, loadICSFromReader ffFuel nowT (eventICSContent ev) calName color =
        some (.ok [ev']) ∧
      ev'.Summary = ev.Summary ∧ ev'.Start = ev.Start ∧ ev'.End = ev.End ∧
      ev'.Description = ev.Description := by
  refine ⟨_, decode_eventICSContent ffFuel nowT calName color ev huid hs1 hs2 he1 he2,
    ?_, rfl, rfl, rfl⟩
  dsimp only
  rw [if_neg hsum]

/-- Witness for C6: an event whose summary and description carry commas,
semicolons, newlines and backslashes survives the round trip; the
hypotheses hold and the theorem applies. -/
theorem C6_witness :
    (Event.mk "Team, sync; plan\nnotes\\x" 1700000000 1700003600 "desc, more"
        "c" "205" "uid-1").Summary ≠ "" ∧
    (∃ ev' : Event, loadICSFromReader 10 1700000000
        (eventICSContent (Event.mk "Team, sync; plan\nnotes\\x" 1700000000 1700003600
          "desc, more" "c" "205" "uid-1")) "c" "205" = some (.ok [ev']) ∧
      ev'.Summary = (Event.mk "Team, sync; plan\nnotes\\x" 1700000000 1700003600 "desc, more"
        "c" "205" "uid-1").Summary ∧
      ev'.Start = (Event.mk "Team, sync; plan\nnotes\\x" 1700000000 1700003600 "desc, more"
        "c" "205" "uid-1").Start ∧
      ev'.End = (Event.mk "Team, sync; plan\nnotes\\x" 1700000000 1700003600 "desc, more"
        "c" "205" "uid-1").End ∧
      ev'.Description = (Event.mk "Team, sync; plan\nnotes\\x" 1700000000 1700003600 "desc, more"
        "c" "205" "uid-1").Description) :=
  ⟨by decide,
   C6_roundtrip 10 1700000000 "c" "205"
     (Event.mk "Team, sync; plan\nnotes\\x" 1700000000 1700003600 "desc, more" "c" "205" "uid-1")
     (by decide) (by decide) (by decide) (by decide) (by decide) (by decide)⟩

/-- Counterexample to C6 as stated: an event with an EMPTY summary decodes
to the (No title) placeholder, so the round trip does not reproduce every
summary. -/
theorem C6_counterexample :
    loadICSFromReader 10 1700000000
        (eventICSContent (Event.mk "" 1700000000 1700003600 "d" "c" "205" "u")) "c" "205" =
      some (.ok [Event.mk "(No title)" 1700000000 1700003600 "d" "c" "205" "u"]) ∧
    ("(No title)" : String) ≠ "" := ⟨by decide, by decide⟩

end Zebracal
